import Mathlib

set_option maxHeartbeats 1000000

/-!
Verification model of the TCP file-transfer relay
(`src/server.py`, `src/client.py`).

Bytes are modelled as `Nat`; byte strings as `List Nat`.  The transport
underneath one connection is modelled as the ordered list of non-empty
chunks that successive `sock.recv` calls will deliver; an exhausted chunk
list models the peer having closed the stream (`recv` returning zero
bytes, which the source turns into `ConnectionError`).  A `recv` call
with bound `k` delivers at most `k` bytes of the front chunk and leaves
the remainder of that chunk at the front, exactly as a kernel socket
buffer would.

Header lines are handled at the byte level.  The source decodes header
bytes with `decode("utf-8", errors="replace")` and operates on the
resulting string; for the ASCII protocol tags, the `|` separator and the
`\n` delimiter the byte-level view coincides with the decoded-string
view (`|` = 0x7C and `\n` = 0x0A never occur inside a multi-byte UTF-8
sequence, and the replacement character is neither), so splitting and
tag tests are faithfully represented on raw bytes.
-/

/-- State of one `Connection` reader: the internal accumulator
(`self._buffer`) and the chunks the transport will still deliver. -/
structure Conn where
  buffer : List Nat
  net : List (List Nat)
deriving DecidableEq

/-- Concatenation of a chunk list. -/
def flat : List (List Nat) → List Nat
  | [] => []
  | ch :: rest => ch ++ flat rest

/-- Total number of bytes still to be delivered by the transport. -/
def netBytes : List (List Nat) → Nat
  | [] => 0
  | ch :: rest => ch.length + netBytes rest

/-- All bytes not yet returned to a caller: accumulator contents followed
by everything the transport will still deliver. -/
def pending (c : Conn) : List Nat := c.buffer ++ flat c.net

/-- Chunk lists delivered by a transport are non-empty chunk by chunk
(a zero-byte read only happens at end of stream). -/
def ValidNet (c : Conn) : Prop := ∀ ch ∈ c.net, ch ≠ []

instance (c : Conn) : Decidable (ValidNet c) :=
  List.decidableBAll (fun ch => ch ≠ []) c.net

/-- Fuel-indexed body of `Connection.recv_line` (server.py lines 22-34):
search the accumulator for the byte `\n` = 10; on success return the
line including its trailing delimiter and consume it from the
accumulator; otherwise pull the next `recv(4096)` chunk into the
accumulator, failing when the read returns zero bytes.  The fuel only
bounds the number of `recv` iterations; `recv_line` always supplies
enough. -/
def recvLineF : Nat → Conn → Option (List Nat × Conn)
  | 0, _ => none
  | fuel + 1, c =>
    match c.buffer.findIdx? (fun b => b == 10) with
    | some i => some (c.buffer.take (i + 1), ⟨c.buffer.drop (i + 1), c.net⟩)
    | none =>
      match c.net with
      | [] => none
      | ch :: rest =>
        let got := ch.take 4096
        if got = [] then none
        else recvLineF fuel ⟨c.buffer ++ got,
          if ch.drop 4096 = [] then rest else ch.drop 4096 :: rest⟩

/-- `Connection.recv_line`: returns the next delimiter-terminated line
(delimiter included) or `none` when the peer closed the stream before a
delimiter appeared. -/
def recv_line (c : Conn) : Option (List Nat × Conn) :=
  recvLineF (netBytes c.net + 1) c

/-- Python slice `l[:t]` for an `int` bound `t`: a non-negative bound
takes the first `t` elements, a negative bound takes all but the last
`-t` elements (clamped at zero). -/
def pySliceTake (t : Int) (l : List Nat) : List Nat :=
  if 0 ≤ t then l.take t.toNat else l.take (l.length - (-t).toNat)

/-- Python `del l[:t]`: what remains of `l` after deleting the slice
`l[:t]`. -/
def pySliceDrop (t : Int) (l : List Nat) : List Nat :=
  if 0 ≤ t then l.drop t.toNat else l.drop (l.length - (-t).toNat)

/-- Fuel-indexed `while n > 0` loop of `Connection.recv_exact`
(server.py lines 45-50): pull `recv(min(4096, n))` chunks straight into
`data`, failing on a zero-byte read. -/
def recvExactLoopF : Nat → Int → List Nat → Conn → Option (List Nat × Conn)
  | 0, _, _, _ => none
  | fuel + 1, n, data, c =>
    if 0 < n then
      match c.net with
      | [] => none
      | ch :: rest =>
        let k := min 4096 n.toNat
        let got := ch.take k
        if got = [] then none
        else recvExactLoopF fuel (n - got.length) (data ++ got)
          ⟨c.buffer, if ch.drop k = [] then rest else ch.drop k :: rest⟩
    else some (data, c)

/-- `Connection.recv_exact(n)` (server.py lines 36-51): first drain
`min(n, len(buffer))` bytes from the accumulator via Python slicing
(`data.extend(buffer[:take]); del buffer[:take]; n -= take`), then loop
on the transport while `n > 0`.  The argument is an `Int` exactly as in
the source, where `n` comes from Python's `int(...)` and may be
negative. -/
def recv_exact (n : Int) (c : Conn) : Option (List Nat × Conn) :=
  if c.buffer = [] then
    recvExactLoopF (netBytes c.net + 1) n [] c
  else
    let t : Int := min n (c.buffer.length : Int)
    recvExactLoopF (netBytes c.net + 1) (n - t) (pySliceTake t c.buffer)
      ⟨pySliceDrop t c.buffer, c.net⟩

/-- One abstract Stream Reader call. -/
inductive Op where
  | line : Op
  | exact (n : Int) : Op
deriving DecidableEq

/-- Observable result of one Stream Reader call. -/
inductive Outcome where
  | line (bs : List Nat)
  | bytes (bs : List Nat)
  | closed
deriving DecidableEq

/-- Run a script of `recv_line` / `recv_exact` calls against a reader
state, recording each result; a `ConnectionError` stops the run (the
session loop it feeds terminates there). -/
def runOps : List Op → Conn → List Outcome
  | [], _ => []
  | Op.line :: ops, c =>
    match recv_line c with
    | none => [Outcome.closed]
    | some (l, c') => Outcome.line l :: runOps ops c'
  | Op.exact n :: ops, c =>
    match recv_exact n c with
    | none => [Outcome.closed]
    | some (bs, c') => Outcome.bytes bs :: runOps ops c'

/-! Frame codec: the header handling shared by `TCPServer.handle_client`
(server.py lines 108-139) and `TCPClient._receiver_loop`
(client.py lines 67-95). -/

/-- Bytes of the literal tag `MSG|`. -/
def msgTag : List Nat := [77, 83, 71, 124]

/-- Bytes of the literal tag `FILE|`. -/
def fileTag : List Nat := [70, 73, 76, 69, 124]

/-- Python `header.rstrip("\n")`: remove every trailing newline byte. -/
def rstripNl (l : List Nat) : List Nat :=
  ((l.reverse).dropWhile (fun b => b == 10)).reverse

/-- Python `str.split(sep)` for a one-byte separator: split at every
occurrence; `"".split(sep) = [""]` and a trailing separator yields a
trailing empty field. -/
def pySplit (sep : Nat) : List Nat → List (List Nat)
  | [] => [[]]
  | b :: rest =>
    if b = sep then [] :: pySplit sep rest
    else
      match pySplit sep rest with
      | [] => [[b]]
      | p :: ps => (b :: p) :: ps

/-- ASCII decimal digit test. -/
def isDigit (b : Nat) : Bool := 48 ≤ b && b ≤ 57

/-- ASCII whitespace test: the ASCII characters Python's `int` strips
(the code points with the Unicode White_Space property; below 0x80
those are TAB..CR 0x09-0x0D and SPACE). -/
def isSpace (b : Nat) : Bool :=
  b == 32 || b == 9 || b == 10 || b == 13 || b == 11 || b == 12

/-- Value of a string of ASCII digits. -/
def digitsToNat (l : List Nat) : Nat :=
  l.foldl (fun a b => a * 10 + (b - 48)) 0

/-- Continuation of an unsigned decimal numeral after its first digit,
with PEP 515 underscore grouping: at each position a digit, or one `_`
that must be followed by a digit.  Accumulates the value over the
digits (underscores contribute nothing). -/
def digitGroupAux : Nat → List Nat → Option Nat
  | acc, [] => some acc
  | acc, b :: rest =>
    if isDigit b then digitGroupAux (acc * 10 + (b - 48)) rest
    else if b = 95 then
      match rest with
      | [] => none
      | d :: rest2 =>
        if isDigit d then digitGroupAux (acc * 10 + (d - 48)) rest2 else none
    else none

/-- Unsigned decimal numeral as accepted by Python `int` in base 10:
a digit followed by digits singly separated by optional underscores
(`1_0` parses to 10; `_1`, `1_`, `1__0` raise `ValueError`). -/
def digitGroup? : List Nat → Option Nat
  | [] => none
  | d :: rest => if isDigit d then digitGroupAux (d - 48) rest else none

/-- Python `int(s)` on ASCII input: strip surrounding whitespace, allow
an optional `+`/`-` sign followed by an underscore-grouped run of
digits (PEP 515), otherwise raise `ValueError` (`none`).  Negative
numerals parse successfully.  This byte-level parser agrees with the
source exactly on ASCII fields; code points above 0x7F (where Python
additionally accepts Unicode digits and whitespace of the decoded
string) are outside the model, so theorems resting on a `pyInt?`
outcome restrict the field to ASCII bytes. -/
def pyInt? (s : List Nat) : Option Int :=
  let t := ((s.dropWhile isSpace).reverse.dropWhile isSpace).reverse
  match t with
  | [] => none
  | c :: rest =>
    if c = 43 then (digitGroup? rest).map (fun v => (v : Int))
    else if c = 45 then (digitGroup? rest).map (fun v => -(v : Int))
    else (digitGroup? (c :: rest)).map (fun v => (v : Int))

/-- Decimal numeral of a natural number (Python `f"{n}"`), via fuel so
that it reduces in the kernel; `natDigits` supplies sufficient fuel. -/
def natDigitsF : Nat → Nat → List Nat
  | 0, _ => []
  | fuel + 1, n => if n < 10 then [48 + n] else natDigitsF fuel (n / 10) ++ [48 + n % 10]

/-- Decimal numeral of a natural number. -/
def natDigits (n : Nat) : List Nat := natDigitsF (n + 1) n

/-- Python `f"{i}"` for an `int`: decimal digits with a leading `-` for
negative values. -/
def intDigits (i : Int) : List Nat :=
  if i < 0 then 45 :: natDigits (-i).toNat else natDigits i.toNat

/-- UTF-8 encoding of U+FFFD REPLACEMENT CHARACTER. -/
def repChar : List Nat := [239, 191, 189]

/-- UTF-8 continuation byte test (0x80-0xBF). -/
def utf8Cont (b : Nat) : Bool := 128 ≤ b && b ≤ 191

/-- Byte-level composite of `bytes.decode("utf-8", errors="replace")`
followed by `str.encode("utf-8")`: valid UTF-8 sequences (no overlongs,
no surrogates, at most U+10FFFF) pass through unchanged, and each
maximal part of an ill-formed sequence — a lone invalid byte, or a
truncated sequence cut at its first impossible byte — is replaced by the
three bytes of U+FFFD, which is CPython's replacement policy.  The
header fields the server relays are exactly this function of the raw
wire bytes, because `|` (0x7C) and `\n` (0x0A) never occur inside a
multi-byte sequence or a replaced part, so decoding commutes with the
line and field splits.  Written with fuel so that it reduces in the
kernel; every step consumes at least one byte, so `utf8Norm` supplies
sufficient fuel. -/
def utf8NormF : Nat → List Nat → List Nat
  | 0, _ => []
  | _ + 1, [] => []
  | fuel + 1, b :: rest =>
    if b < 128 then b :: utf8NormF fuel rest
    else if 194 ≤ b && b ≤ 223 then
      match rest with
      | [] => repChar
      | c :: rest2 =>
        if utf8Cont c then b :: c :: utf8NormF fuel rest2
        else repChar ++ utf8NormF fuel rest
    else if 224 ≤ b && b ≤ 239 then
      match rest with
      | [] => repChar
      | c :: rest2 =>
        if (if b = 224 then 160 else 128) ≤ c && c ≤ (if b = 237 then 159 else 191) then
          match rest2 with
          | [] => repChar
          | d :: rest3 =>
            if utf8Cont d then b :: c :: d :: utf8NormF fuel rest3
            else repChar ++ utf8NormF fuel rest2
        else repChar ++ utf8NormF fuel rest
    else if 240 ≤ b && b ≤ 244 then
      match rest with
      | [] => repChar
      | c :: rest2 =>
        if (if b = 240 then 144 else 128) ≤ c && c ≤ (if b = 244 then 143 else 191) then
          match rest2 with
          | [] => repChar
          | d :: rest3 =>
            if utf8Cont d then
              match rest3 with
              | [] => repChar
              | e :: rest4 =>
                if utf8Cont e then b :: c :: d :: e :: utf8NormF fuel rest4
                else repChar ++ utf8NormF fuel rest3
            else repChar ++ utf8NormF fuel rest2
        else repChar ++ utf8NormF fuel rest
    else repChar ++ utf8NormF fuel rest

/-- `encode("utf-8") ∘ decode("utf-8", errors="replace")` on raw bytes:
`utf8NormF` with sufficient fuel. -/
def utf8Norm (l : List Nat) : List Nat := utf8NormF (l.length + 1) l

/-- Header the server re-encodes when relaying a file frame
(`f"FILE|{filename}|{size}\n"`, server.py line 136).  `filename` here is
the raw wire field; the source interpolates the replace-decoded string,
so the relayed bytes are its re-encoding `utf8Norm filename` — the
identity exactly on valid UTF-8 fields. -/
def fileHeader (filename : List Nat) (size : Int) : List Nat :=
  fileTag ++ utf8Norm filename ++ [124] ++ intDigits size ++ [10]

/-- Header of a relayed message frame (`f"MSG|{msg}\n"`, server.py line
117), again interpolating the replace-decoded text: the relayed bytes
re-encode as `utf8Norm text`. -/
def msgHeader (text : List Nat) : List Nat := msgTag ++ utf8Norm text ++ [10]

/-- Wire encoding of a file transfer produced by `TCPClient._sender_loop`
(client.py lines 117-120): `FILE|<filename>|<len(data)>\n` immediately
followed by the payload bytes. -/
def encodeFileFrame (filename data : List Nat) : List Nat :=
  fileTag ++ filename ++ [124] ++ natDigits data.length ++ [10] ++ data

/-- Outcome of decoding one header (plus payload) in the session loop.
The three `bad*`/`unknown` constructors are the logged warning events of
the source (`[WARN] ...` prints); no frame is produced for them. -/
inductive Event where
  | msg (text : List Nat)
  | file (filename : List Nat) (size : Int) (data : List Nat)
  | badHeader (header : List Nat)
  | badSize (sizeField : List Nat)
  | unknown (header : List Nat)
deriving DecidableEq

/-- Result of one iteration of the session loop's decode phase:
either an event together with the reader state afterwards, or session
termination on `ConnectionError`. -/
inductive Step where
  | ok (e : Event) (c : Conn)
  | closed
deriving DecidableEq

/-- One decode iteration of the session loop, common to
`TCPServer.handle_client` and `TCPClient._receiver_loop`:
`header = recv_line().rstrip("\n")`; dispatch on the `MSG|` / `FILE|`
tag; for `FILE|` require exactly 3 `|`-separated fields and an
`int`-parsable size, then `recv_exact(size)` for the payload. -/
def sessionStep (c : Conn) : Step :=
  match recv_line c with
  | none => Step.closed
  | some (line, c1) =>
    let header := rstripNl line
    if header.take 4 = msgTag then
      Step.ok (Event.msg (header.drop 4)) c1
    else if header.take 5 = fileTag then
      match pySplit 124 header with
      | [_, filename, sizeStr] =>
        match pyInt? sizeStr with
        | none => Step.ok (Event.badSize sizeStr) c1
        | some size =>
          match recv_exact size c1 with
          | none => Step.closed
          | some (data, c2) => Step.ok (Event.file filename size data) c2
      | _ => Step.ok (Event.badHeader header) c1
    else Step.ok (Event.unknown header) c1

/-! Connection registry and broadcast relay (`TCPServer`).  A `Client`
models one `Connection` object held by the server: its identity (the
peer address, reduced to a `Nat`), whether writes to its socket raise
(a dead peer fails on the first write), the bytes successfully written
to it, and whether its socket has been closed.  The registry
`self.clients` holds references to these objects; the model keeps the
objects in a pool `conns` keyed by identity and the registry as the
list of identities, mirroring Python reference semantics. -/

structure Client where
  cid : Nat
  failing : Bool
  rcvd : List Nat
  closed : Bool
deriving DecidableEq

structure World where
  conns : List Client
  registry : List Nat
deriving DecidableEq

/-- Look up a connection object by identity. -/
def getConn (w : World) (i : Nat) : Option Client :=
  w.conns.find? (fun c => c.cid == i)

/-- Apply `f` to the connection object with identity `i`. -/
def updateConn (i : Nat) (f : Client → Client) (w : World) : World :=
  { w with conns := w.conns.map (fun c => if c.cid = i then f c else c) }

/-- `Connection.close` (server.py lines 56-60): closing is wrapped in
`try/except` and never raises, also on an already-closed socket. -/
def closeConn (c : Client) : Client := { c with closed := true }

/-- Record bytes successfully written to a peer socket. -/
def appendRcvd (bs : List Nat) (c : Client) : Client := { c with rcvd := c.rcvd ++ bs }

/-- Registration of a freshly accepted connection
(server.py lines 78-80). -/
def register (cl : Client) (w : World) : World :=
  { conns := w.conns ++ [cl], registry := w.registry ++ [cl.cid] }

/-- `TCPServer.remove_client` (server.py lines 102-106): under the lock,
remove the handle from `self.clients` if present (Python `list.remove`
drops the first occurrence; absent handles are a no-op), then close it
unconditionally. -/
def remove_client (i : Nat) (w : World) : World :=
  updateConn i closeConn { w with registry := w.registry.erase i }

/-- Whether sending to target `i` raises (a dangling identity never
arises under the registry invariants). -/
def targetFails (w : World) (i : Nat) : Bool :=
  match getConn w i with
  | none => false
  | some c => c.failing

/-- One send of the broadcast loop body (server.py lines 93-100): write
`header` then, if non-empty, `payload` to the target (the delivered
bytes are `header ++ payload` either way); on an exception remove the
target from the registry and close it. -/
def bcStep (header payload : List Nat) (w : World) (i : Nat) : World :=
  match getConn w i with
  | none => w
  | some c =>
    if c.failing then remove_client i w
    else updateConn i (appendRcvd (header ++ payload)) w

/-- `TCPServer.broadcast` (server.py lines 89-100): snapshot the
registry without the sender (Python identity `c is not sender`), then
send to each snapshotted target in order. -/
def broadcast (sender : Nat) (header payload : List Nat) (w : World) : World :=
  (w.registry.filter (fun i => i != sender)).foldl (bcStep header payload) w

/-- Effects the server performs for one decoded frame, in program
order. -/
inductive Effect where
  | save (filename data : List Nat)
  | relay (header payload : List Nat)
deriving DecidableEq

/-- Result of one full iteration of `TCPServer.handle_client` for
connection `selfId`: either the session continues with the decoded
event, the effect list in program order and the updated world, or the
session terminates and the `finally` clause has run `remove_client`. -/
inductive SessionOut where
  | next (e : Event) (acts : List Effect) (c : Conn) (w : World)
  | terminated (w : World)
deriving DecidableEq

/-- One iteration of `TCPServer.handle_client` (server.py lines
108-143).  `diskOk` tells whether the `open(save_path, "wb")` /
`f.write(data)` of this iteration succeeds; when it raises `OSError`
the `except (ConnectionError, OSError)` / `finally` path removes the
connection, and no broadcast happens.  Warning events only log and
continue. -/
def handle_client_step (selfId : Nat) (diskOk : Bool) (c : Conn) (w : World) : SessionOut :=
  match sessionStep c with
  | Step.closed => SessionOut.terminated (remove_client selfId w)
  | Step.ok e c' =>
    match e with
    | Event.msg text =>
      SessionOut.next e [Effect.relay (msgHeader text) []] c'
        (broadcast selfId (msgHeader text) [] w)
    | Event.file fn sz data =>
      if diskOk then
        SessionOut.next e [Effect.save fn data, Effect.relay (fileHeader fn sz) data] c'
          (broadcast selfId (fileHeader fn sz) data w)
      else SessionOut.terminated (remove_client selfId w)
    | _ => SessionOut.next e [] c' w

/-- Identities of the pooled connection objects are pairwise distinct
(each accepted connection is a fresh Python object). -/
def cidNodup (w : World) : Prop := (w.conns.map Client.cid).Nodup

instance (w : World) : Decidable (cidNodup w) :=
  List.nodupDecidable (w.conns.map Client.cid)

/-! Characterization of the Stream Reader: each operation's result and
failure condition depend only on `pending`, the concatenation of the
accumulator and the undelivered transport bytes. -/

/-- First line of a stream that contains a newline, delimiter included. -/
def lineHead (s : List Nat) : List Nat := s.takeWhile (fun b => b != 10) ++ [10]

/-- Remainder of a stream after its first line. -/
def lineRest (s : List Nat) : List Nat := (s.dropWhile (fun b => b != 10)).tail

theorem netBytes_eq (net : List (List Nat)) : netBytes net = (flat net).length := by
  induction net with
  | nil => rfl
  | cons ch rest ih => simp [netBytes, flat, ih]

theorem newline_split_append {l : List Nat} (r : List Nat) (h : (10 : Nat) ∈ l) :
    (l ++ r).takeWhile (fun b => b != 10) = l.takeWhile (fun b => b != 10) ∧
    (l ++ r).dropWhile (fun b => b != 10) = l.dropWhile (fun b => b != 10) ++ r ∧
    l.dropWhile (fun b => b != 10) ≠ [] := by
  induction l with
  | nil => cases h
  | cons b l ih =>
    by_cases hb : b = 10
    · subst hb
      simp [List.takeWhile_cons, List.dropWhile_cons]
    · rcases List.mem_cons.mp h with h10 | h10
      · exact absurd h10.symm hb
      · have hbne : (b != 10) = true := by simpa using hb
        obtain ⟨h1, h2, h3⟩ := ih h10
        simp [List.takeWhile_cons, List.dropWhile_cons, hbne, h1, h2, h3]

theorem findIdx_newline_some : ∀ (l : List Nat) (i : Nat),
    l.findIdx? (fun b => b == 10) = some i →
    l.take (i + 1) = l.takeWhile (fun b => b != 10) ++ [10] ∧
    l.drop (i + 1) = (l.dropWhile (fun b => b != 10)).tail ∧ (10 : Nat) ∈ l := by
  intro l
  induction l with
  | nil => intro i h; simp at h
  | cons b l ih =>
    intro i h
    rw [List.findIdx?_cons] at h
    by_cases hb : b = 10
    · subst hb
      simp only [beq_self_eq_true, if_true, Option.some.injEq] at h
      subst h
      simp [List.takeWhile_cons, List.dropWhile_cons]
    · have hbeq : (b == 10) = false := by simpa using hb
      rw [hbeq, if_neg (by simp), List.findIdx?_succ] at h
      obtain ⟨j, hj, rfl⟩ := Option.map_eq_some'.mp h
      obtain ⟨h1, h2, h3⟩ := ih j hj
      have hbne : (b != 10) = true := by simpa using hb
      refine ⟨?_, ?_, List.mem_cons_of_mem _ h3⟩
      · simpa [List.takeWhile_cons, hbne] using h1
      · simpa [List.dropWhile_cons, hbne] using h2

theorem recvLineF_spec : ∀ (fuel : Nat) (c : Conn), ValidNet c → netBytes c.net < fuel →
    (recvLineF fuel c = none ↔ (10 : Nat) ∉ pending c) ∧
    (∀ l c', recvLineF fuel c = some (l, c') →
      l = lineHead (pending c) ∧ pending c' = lineRest (pending c) ∧ ValidNet c') := by
  intro fuel
  induction fuel with
  | zero => intro c _ h; omega
  | succ fuel ih =>
    rintro ⟨buf, net⟩ hv hfuel
    cases hfind : buf.findIdx? (fun b => b == 10) with
    | some i =>
      obtain ⟨ht, hd, hm⟩ := findIdx_newline_some buf i hfind
      obtain ⟨hw1, hw2, hw3⟩ := newline_split_append (r := flat net) hm
      have hmem : (10 : Nat) ∈ pending ⟨buf, net⟩ := List.mem_append_left _ hm
      constructor
      · simp [recvLineF, hfind, hmem]
      · intro l c' h
        simp only [recvLineF, hfind, Option.some.injEq, Prod.mk.injEq] at h
        obtain ⟨rfl, rfl⟩ := h
        refine ⟨?_, ?_, hv⟩
        · rw [ht]
          simp [lineHead, pending, hw1]
        · simp [pending, lineRest, hw2, List.tail_append_of_ne_nil hw3, hd]
    | none =>
      have hnb : (10 : Nat) ∉ buf := by
        intro hmem
        have := List.findIdx?_eq_none_iff.mp hfind 10 hmem
        simp at this
      cases net with
      | nil =>
        constructor
        · simp [recvLineF, hfind, pending, flat, hnb]
        · intro l c' h
          simp [recvLineF, hfind] at h
      | cons ch rest =>
        have hch : ch ≠ [] := hv ch (List.mem_cons_self _ _)
        have hchlen : ch.length ≠ 0 := fun h => hch (List.length_eq_zero.mp h)
        have hgot : ch.take 4096 ≠ [] := by
          intro h0
          have hlen : (ch.take 4096).length = 0 := by rw [h0]; rfl
          rw [List.length_take] at hlen
          omega
        have hglen : (ch.take 4096).length = min 4096 ch.length := List.length_take ..
        have hfuel' : ch.length + netBytes rest < fuel + 1 := by
          simpa [netBytes] using hfuel
        by_cases hd' : ch.drop 4096 = []
        · have hgotch : ch.take 4096 = ch := by
            have h := List.take_append_drop 4096 ch
            rwa [hd', List.append_nil] at h
          have hstep : recvLineF (fuel + 1) ⟨buf, ch :: rest⟩
              = recvLineF fuel ⟨buf ++ ch, rest⟩ := by
            simp [recvLineF, hfind, hgotch, hch, hd']
          have hvalid : ValidNet (⟨buf ++ ch, rest⟩ : Conn) :=
            fun ch' hm => hv ch' (List.mem_cons_of_mem _ hm)
          have hnbytes : netBytes rest < fuel := by omega
          have hpend : pending (⟨buf ++ ch, rest⟩ : Conn) = pending ⟨buf, ch :: rest⟩ := by
            simp [pending, flat, List.append_assoc]
          obtain ⟨ih1, ih2⟩ := ih ⟨buf ++ ch, rest⟩ hvalid hnbytes
          rw [hstep]
          refine ⟨by rw [ih1, hpend], ?_⟩
          intro l c' h
          obtain ⟨g1, g2, g3⟩ := ih2 l c' h
          rw [hpend] at g1 g2
          exact ⟨g1, g2, g3⟩
        · have hstep : recvLineF (fuel + 1) ⟨buf, ch :: rest⟩
              = recvLineF fuel ⟨buf ++ ch.take 4096, ch.drop 4096 :: rest⟩ := by
            simp [recvLineF, hfind, hgot, hd']
          have hvalid : ValidNet (⟨buf ++ ch.take 4096, ch.drop 4096 :: rest⟩ : Conn) := by
            intro ch' hm
            rcases List.mem_cons.mp hm with rfl | hm'
            · exact hd'
            · exact hv ch' (List.mem_cons_of_mem _ hm')
          have hdlen : ch.length > 4096 := by
            by_contra hle
            exact hd' (List.drop_eq_nil_of_le (by omega))
          have hnbytes : netBytes (ch.drop 4096 :: rest) < fuel := by
            have h1 : netBytes (ch.drop 4096 :: rest)
                = (ch.drop 4096).length + netBytes rest := rfl
            have h2 : (ch.drop 4096).length = ch.length - 4096 := List.length_drop ..
            omega
          have hpend : pending (⟨buf ++ ch.take 4096, ch.drop 4096 :: rest⟩ : Conn)
              = pending ⟨buf, ch :: rest⟩ := by
            show (buf ++ ch.take 4096) ++ flat (ch.drop 4096 :: rest)
              = buf ++ flat (ch :: rest)
            simp only [flat]
            rw [List.append_assoc, ← List.append_assoc (ch.take 4096) (ch.drop 4096),
              List.take_append_drop]
          obtain ⟨ih1, ih2⟩ := ih ⟨buf ++ ch.take 4096, ch.drop 4096 :: rest⟩ hvalid hnbytes
          rw [hstep]
          refine ⟨by rw [ih1, hpend], ?_⟩
          intro l c' h
          obtain ⟨g1, g2, g3⟩ := ih2 l c' h
          rw [hpend] at g1 g2
          exact ⟨g1, g2, g3⟩

theorem recvExactLoopF_spec : ∀ (fuel : Nat) (n : Int) (data buf : List Nat)
    (net : List (List Nat)), ValidNet ⟨buf, net⟩ → netBytes net < fuel →
    (recvExactLoopF fuel n data ⟨buf, net⟩ = none ↔ ((flat net).length : Int) < n) ∧
    (∀ bs c', recvExactLoopF fuel n data ⟨buf, net⟩ = some (bs, c') →
      bs = data ++ (flat net).take n.toNat ∧ c'.buffer = buf ∧
      flat c'.net = (flat net).drop n.toNat ∧ ValidNet c' ∧
      n ≤ ((flat net).length : Int)) := by
  intro fuel
  induction fuel with
  | zero => intro n data buf net _ h; omega
  | succ fuel ih =>
    intro n data buf net hv hfuel
    by_cases hn : 0 < n
    · cases net with
      | nil =>
        have hstep : recvExactLoopF (fuel + 1) n data ⟨buf, []⟩ = none := by
          simp only [recvExactLoopF]
          rw [if_pos hn]
        rw [hstep]
        have hlen0 : (flat ([] : List (List Nat))).length = 0 := rfl
        refine ⟨iff_of_true rfl (by omega), ?_⟩
        intro bs c' h
        simp at h
      | cons ch rest =>
        have hch : ch ≠ [] := hv ch (List.mem_cons_self _ _)
        have hchlen : ch.length ≠ 0 := fun h => hch (List.length_eq_zero.mp h)
        have hkpos : 0 < min 4096 n.toNat := by omega
        have hgot : ch.take (min 4096 n.toNat) ≠ [] := by
          intro h0
          have hlen : (ch.take (min 4096 n.toNat)).length = 0 := by rw [h0]; rfl
          rw [List.length_take] at hlen
          omega
        have hglen : (ch.take (min 4096 n.toNat)).length
            = min (min 4096 n.toNat) ch.length := List.length_take ..
        have hfuel' : ch.length + netBytes rest < fuel + 1 := by
          simpa [netBytes] using hfuel
        have hchsplit : ch.take (min 4096 n.toNat) ++ ch.drop (min 4096 n.toNat) = ch :=
          List.take_append_drop ..
        have hstep : recvExactLoopF (fuel + 1) n data ⟨buf, ch :: rest⟩
            = recvExactLoopF fuel (n - (ch.take (min 4096 n.toNat)).length)
              (data ++ ch.take (min 4096 n.toNat))
              ⟨buf, if ch.drop (min 4096 n.toNat) = [] then rest
                    else ch.drop (min 4096 n.toNat) :: rest⟩ := by
          simp only [recvExactLoopF]
          rw [if_pos hn, if_neg hgot]
        have hvalid : ValidNet
            (⟨buf, if ch.drop (min 4096 n.toNat) = [] then rest
                   else ch.drop (min 4096 n.toNat) :: rest⟩ : Conn) := by
          intro ch' hm
          by_cases hd' : ch.drop (min 4096 n.toNat) = []
          · rw [if_pos hd'] at hm
            exact hv ch' (List.mem_cons_of_mem _ hm)
          · rw [if_neg hd'] at hm
            rcases List.mem_cons.mp hm with rfl | hm'
            · exact hd'
            · exact hv ch' (List.mem_cons_of_mem _ hm')
        have hflatnext : flat (if ch.drop (min 4096 n.toNat) = [] then rest
              else ch.drop (min 4096 n.toNat) :: rest)
            = ch.drop (min 4096 n.toNat) ++ flat rest := by
          by_cases hd' : ch.drop (min 4096 n.toNat) = [] <;> simp [hd', flat]
        have hnbytes : netBytes (if ch.drop (min 4096 n.toNat) = [] then rest
            else ch.drop (min 4096 n.toNat) :: rest) < fuel := by
          have h1 : netBytes (if ch.drop (min 4096 n.toNat) = [] then rest
              else ch.drop (min 4096 n.toNat) :: rest)
              = (ch.drop (min 4096 n.toNat)).length + netBytes rest := by
            by_cases hd' : ch.drop (min 4096 n.toNat) = [] <;> simp [hd', netBytes]
          have h2 : (ch.drop (min 4096 n.toNat)).length
              = ch.length - min 4096 n.toNat := List.length_drop ..
          omega
        have hflatcons : flat (ch :: rest) = ch.take (min 4096 n.toNat)
            ++ (ch.drop (min 4096 n.toNat) ++ flat rest) := by
          show ch ++ flat rest = _
          rw [← List.append_assoc, hchsplit]
        obtain ⟨ih1, ih2⟩ := ih (n - (ch.take (min 4096 n.toNat)).length)
          (data ++ ch.take (min 4096 n.toNat)) buf _ hvalid hnbytes
        rw [hstep]
        have hlen1 : (flat (ch :: rest)).length = ch.length + (flat rest).length := by
          simp [flat]
        have hlen2 : (ch.drop (min 4096 n.toNat) ++ flat rest).length
            = (ch.length - min 4096 n.toNat) + (flat rest).length := by
          simp [List.length_drop]
        constructor
        · rw [ih1, hflatnext]
          omega
        · intro bs c' h
          obtain ⟨g1, g2, g3, g4, g5⟩ := ih2 bs c' h
          rw [hflatnext] at g5
          have hgleN : (ch.take (min 4096 n.toNat)).length ≤ n.toNat := by omega
          have harg : (n - ((ch.take (min 4096 n.toNat)).length : Int)).toNat
              = n.toNat - (ch.take (min 4096 n.toNat)).length := by omega
          refine ⟨?_, g2, ?_, g4, by omega⟩
          · conv_rhs => rw [hflatcons, List.take_append_eq_append_take,
              List.take_of_length_le hgleN]
            rw [g1, hflatnext, harg, List.append_assoc]
          · conv_rhs => rw [hflatcons, List.drop_append_eq_append_drop,
              List.drop_eq_nil_of_le hgleN]
            rw [g3, hflatnext, harg, List.nil_append]
    · have hstep : recvExactLoopF (fuel + 1) n data ⟨buf, net⟩ = some (data, ⟨buf, net⟩) := by
        simp only [recvExactLoopF]
        rw [if_neg hn]
      rw [hstep]
      refine ⟨iff_of_false (by simp) (by omega), ?_⟩
      intro bs c' h
      simp only [Option.some.injEq, Prod.mk.injEq] at h
      obtain ⟨rfl, rfl⟩ := h
      have htn : n.toNat = 0 := by omega
      refine ⟨by simp [htn], rfl, by simp [htn], hv, by omega⟩

theorem recv_line_spec (c : Conn) (hv : ValidNet c) :
    (recv_line c = none ↔ (10 : Nat) ∉ pending c) ∧
    (∀ l c', recv_line c = some (l, c') →
      l = lineHead (pending c) ∧ pending c' = lineRest (pending c) ∧ ValidNet c') :=
  recvLineF_spec (netBytes c.net + 1) c hv (Nat.lt_succ_self _)

theorem recv_exact_unfold_nil {n : Int} {net : List (List Nat)} :
    recv_exact n ⟨[], net⟩ = recvExactLoopF (netBytes net + 1) n [] ⟨[], net⟩ := by
  simp [recv_exact]

theorem recv_exact_unfold_cons {n : Int} {buf : List Nat} {net : List (List Nat)}
    (hbuf : buf ≠ []) :
    recv_exact n ⟨buf, net⟩ = recvExactLoopF (netBytes net + 1)
      (n - min n (buf.length : Int)) (pySliceTake (min n (buf.length : Int)) buf)
      ⟨pySliceDrop (min n (buf.length : Int)) buf, net⟩ := by
  simp [recv_exact, hbuf]

theorem recv_exact_none_iff (n : Int) (c : Conn) (hv : ValidNet c) :
    recv_exact n c = none ↔ ((pending c).length : Int) < n := by
  obtain ⟨buf, net⟩ := c
  by_cases hbuf : buf = []
  · subst hbuf
    rw [recv_exact_unfold_nil,
      (recvExactLoopF_spec (netBytes net + 1) n [] [] net hv (Nat.lt_succ_self _)).1]
    have hplen : (pending (⟨[], net⟩ : Conn)).length = (flat net).length := by
      simp [pending]
    rw [hplen]
  · rw [recv_exact_unfold_cons hbuf,
      (recvExactLoopF_spec (netBytes net + 1) (n - min n (buf.length : Int))
        (pySliceTake (min n (buf.length : Int)) buf)
        (pySliceDrop (min n (buf.length : Int)) buf) net hv (Nat.lt_succ_self _)).1]
    have hplen : (pending (⟨buf, net⟩ : Conn)).length = buf.length + (flat net).length := by
      simp [pending]
    rw [hplen]
    omega

theorem recv_exact_some_spec (n : Int) (c : Conn) (hn : 0 ≤ n) (hv : ValidNet c) :
    ∀ bs c', recv_exact n c = some (bs, c') →
      bs = (pending c).take n.toNat ∧ pending c' = (pending c).drop n.toNat ∧ ValidNet c' := by
  obtain ⟨buf, net⟩ := c
  intro bs c' h
  by_cases hbuf : buf = []
  · subst hbuf
    rw [recv_exact_unfold_nil] at h
    obtain ⟨g1, g2, g3, g4, g5⟩ :=
      (recvExactLoopF_spec (netBytes net + 1) n [] [] net hv (Nat.lt_succ_self _)).2 bs c' h
    refine ⟨by simpa [pending] using g1, ?_, g4⟩
    simp [pending, g2, g3]
  · rw [recv_exact_unfold_cons hbuf] at h
    obtain ⟨g1, g2, g3, g4, g5⟩ :=
      (recvExactLoopF_spec (netBytes net + 1) (n - min n (buf.length : Int))
        (pySliceTake (min n (buf.length : Int)) buf)
        (pySliceDrop (min n (buf.length : Int)) buf) net hv (Nat.lt_succ_self _)).2 bs c' h
    by_cases hc : n ≤ (buf.length : Int)
    · have ht : min n (buf.length : Int) = n := min_eq_left hc
      rw [ht] at g1 g2 g3
      have hTake : pySliceTake n buf = buf.take n.toNat := by
        simp only [pySliceTake]
        rw [if_pos hn]
      have hDrop : pySliceDrop n buf = buf.drop n.toNat := by
        simp only [pySliceDrop]
        rw [if_pos hn]
      have hsub : n - n = 0 := by omega
      rw [hsub] at g1 g3
      have hrest : n.toNat - buf.length = 0 := by omega
      refine ⟨?_, ?_, g4⟩
      · rw [g1, hTake]
        simp only [Int.toNat_zero, List.take_zero, List.append_nil, pending]
        rw [List.take_append_eq_append_take, hrest]
        simp
      · simp only [pending]
        rw [g2, g3, hDrop]
        simp only [Int.toNat_zero, List.drop_zero]
        rw [List.drop_append_eq_append_drop, hrest]
        simp
    · have ht : min n (buf.length : Int) = (buf.length : Int) := min_eq_right (by omega)
      rw [ht] at g1 g2 g3
      have h0 : (0 : Int) ≤ (buf.length : Int) := by omega
      have hbl : ((buf.length : Int)).toNat = buf.length := by omega
      have hTake : pySliceTake (buf.length : Int) buf = buf := by
        simp only [pySliceTake]
        rw [if_pos h0, hbl, List.take_length]
      have hDrop : pySliceDrop (buf.length : Int) buf = [] := by
        simp only [pySliceDrop]
        rw [if_pos h0, hbl, List.drop_length]
      rw [hTake] at g1
      rw [hDrop] at g2
      have harg : (n - (buf.length : Int)).toNat = n.toNat - buf.length := by omega
      have hfull : buf.take n.toNat = buf := List.take_of_length_le (by omega)
      have hnil : buf.drop n.toNat = [] := List.drop_eq_nil_of_le (by omega)
      refine ⟨?_, ?_, g4⟩
      · rw [g1, harg]
        simp only [pending]
        rw [List.take_append_eq_append_take, hfull]
      · simp only [pending]
        rw [g2, g3, harg, List.drop_append_eq_append_drop, hnil, List.nil_append]

theorem recv_exact_total (n : Int) (c : Conn) (hn : 0 ≤ n) (hv : ValidNet c)
    (hle : n ≤ ((pending c).length : Int)) :
    ∃ bs c', recv_exact n c = some (bs, c') ∧ bs = (pending c).take n.toNat ∧
      pending c' = (pending c).drop n.toNat ∧ ValidNet c' := by
  cases h : recv_exact n c with
  | none =>
    have := (recv_exact_none_iff n c hv).mp h
    omega
  | some p =>
    obtain ⟨bs, c'⟩ := p
    obtain ⟨g1, g2, g3⟩ := recv_exact_some_spec n c hn hv bs c' h
    exact ⟨bs, c', rfl, g1, g2, g3⟩

theorem recv_line_total (c : Conn) (hv : ValidNet c) (hmem : (10 : Nat) ∈ pending c) :
    ∃ l c', recv_line c = some (l, c') ∧ l = lineHead (pending c) ∧
      pending c' = lineRest (pending c) ∧ ValidNet c' := by
  cases h : recv_line c with
  | none => exact absurd hmem ((recv_line_spec c hv).1.mp h)
  | some p =>
    obtain ⟨l, c'⟩ := p
    obtain ⟨g1, g2, g3⟩ := (recv_line_spec c hv).2 l c' h
    exact ⟨l, c', rfl, g1, g2, g3⟩

theorem runOps_pending : ∀ (ops : List Op) (c₁ c₂ : Conn),
    ValidNet c₁ → ValidNet c₂ → pending c₁ = pending c₂ →
    (∀ n, Op.exact n ∈ ops → 0 ≤ n) →
    runOps ops c₁ = runOps ops c₂ := by
  intro ops
  induction ops with
  | nil => intro c₁ c₂ _ _ _ _; rfl
  | cons op ops ih =>
    intro c₁ c₂ hv₁ hv₂ hp hops
    cases op with
    | line =>
      cases h₁ : recv_line c₁ with
      | none =>
        have h10 : (10 : Nat) ∉ pending c₁ := (recv_line_spec c₁ hv₁).1.mp h₁
        have h₂ : recv_line c₂ = none := (recv_line_spec c₂ hv₂).1.mpr (hp ▸ h10)
        simp [runOps, h₁, h₂]
      | some p =>
        obtain ⟨l, c₁'⟩ := p
        obtain ⟨g1, g2, g3⟩ := (recv_line_spec c₁ hv₁).2 l c₁' h₁
        have hmem : (10 : Nat) ∈ pending c₁ := by
          by_contra hno
          have hcontra := (recv_line_spec c₁ hv₁).1.mpr hno
          rw [hcontra] at h₁
          cases h₁
        obtain ⟨l₂, c₂', e₂, e2a, e2b, e2c⟩ := recv_line_total c₂ hv₂ (hp ▸ hmem)
        simp only [runOps, h₁, e₂]
        have hll : l = l₂ := by rw [g1, e2a, hp]
        have hpp : pending c₁' = pending c₂' := by rw [g2, e2b, hp]
        rw [hll, ih c₁' c₂' g3 e2c hpp (fun m hm => hops m (List.mem_cons_of_mem _ hm))]
    | exact n =>
      have hn0 : 0 ≤ n := hops n (List.mem_cons_self _ _)
      cases h₁ : recv_exact n c₁ with
      | none =>
        have hlt := (recv_exact_none_iff n c₁ hv₁).mp h₁
        have h₂ : recv_exact n c₂ = none := by
          rw [recv_exact_none_iff n c₂ hv₂, ← hp]
          exact hlt
        simp [runOps, h₁, h₂]
      | some p =>
        obtain ⟨bs, c₁'⟩ := p
        obtain ⟨g1, g2, g3⟩ := recv_exact_some_spec n c₁ hn0 hv₁ bs c₁' h₁
        have hle : n ≤ ((pending c₁).length : Int) := by
          by_contra hlt
          have hcontra := (recv_exact_none_iff n c₁ hv₁).mpr (by omega)
          rw [hcontra] at h₁
          cases h₁
        obtain ⟨bs₂, c₂', e₂, e2a, e2b, e2c⟩ :=
          recv_exact_total n c₂ hn0 hv₂ (by rw [← hp]; exact hle)
        simp only [runOps, h₁, e₂]
        have hbb : bs = bs₂ := by rw [g1, e2a, hp]
        have hpp : pending c₁' = pending c₂' := by rw [g2, e2b, hp]
        rw [hbb, ih c₁' c₂' g3 e2c hpp (fun m hm => hops m (List.mem_cons_of_mem _ hm))]

theorem runOps_empty_chunk : ∀ ops : List Op,
    runOps ops ⟨[], [[]]⟩ = runOps ops ⟨[], []⟩ := by
  intro ops
  induction ops with
  | nil => rfl
  | cons op ops ih =>
    cases op with
    | line =>
      have h1 : recv_line ⟨[], [[]]⟩ = none := by decide
      have h2 : recv_line ⟨[], []⟩ = none := by decide
      simp [runOps, h1, h2]
    | exact n =>
      by_cases hn : 0 < n
      · have h1 : recv_exact n ⟨[], [[]]⟩ = none := by
          rw [recv_exact_unfold_nil]
          show recvExactLoopF (0 + 1) n [] ⟨[], [[]]⟩ = none
          simp only [recvExactLoopF]
          rw [if_pos hn]
          simp
        have h2 : recv_exact n ⟨[], []⟩ = none := by
          rw [recv_exact_unfold_nil]
          show recvExactLoopF (0 + 1) n [] ⟨[], []⟩ = none
          simp only [recvExactLoopF]
          rw [if_pos hn]
        simp [runOps, h1, h2]
      · have h1 : recv_exact n ⟨[], [[]]⟩ = some ([], ⟨[], [[]]⟩) := by
          rw [recv_exact_unfold_nil]
          show recvExactLoopF (0 + 1) n [] ⟨[], [[]]⟩ = _
          simp only [recvExactLoopF]
          rw [if_neg hn]
        have h2 : recv_exact n ⟨[], []⟩ = some ([], ⟨[], []⟩) := by
          rw [recv_exact_unfold_nil]
          show recvExactLoopF (0 + 1) n [] ⟨[], []⟩ = _
          simp only [recvExactLoopF]
          rw [if_neg hn]
        simp [runOps, h1, h2, ih]

theorem flat_ne_nil {chunks : List (List Nat)} (hne : ∀ ch ∈ chunks, ch ≠ [])
    (h0 : chunks ≠ []) : flat chunks ≠ [] := by
  cases chunks with
  | nil => exact absurd rfl h0
  | cons ch rest =>
    have : ch ≠ [] := hne ch (List.mem_cons_self _ _)
    simp [flat, this]

/-! Codec lemmas. -/

theorem pySplit_no_sep (sep : Nat) : ∀ l : List Nat, sep ∉ l → pySplit sep l = [l] := by
  intro l
  induction l with
  | nil => intro _; rfl
  | cons b t ih =>
    intro h
    have hb : b ≠ sep := fun e => h (e ▸ List.mem_cons_self _ _)
    have ht := ih (fun hm => h (List.mem_cons_of_mem _ hm))
    simp [pySplit, hb, ht]

theorem pySplit_sep_append (sep : Nat) : ∀ a r : List Nat, sep ∉ a →
    pySplit sep (a ++ sep :: r) = a :: pySplit sep r := by
  intro a
  induction a with
  | nil => intro r _; simp [pySplit]
  | cons b t ih =>
    intro r h
    have hb : b ≠ sep := fun e => h (e ▸ List.mem_cons_self _ _)
    have ht := ih r (fun hm => h (List.mem_cons_of_mem _ hm))
    simp [pySplit, hb, ht]

theorem dropWhile_beq10_of_not_mem {l : List Nat} (h : (10 : Nat) ∉ l) :
    l.dropWhile (fun b => b == 10) = l := by
  cases l with
  | nil => rfl
  | cons b t =>
    have hb : b ≠ 10 := fun e => h (e ▸ List.mem_cons_self _ _)
    simp [List.dropWhile_cons, hb]

theorem rstripNl_line {l : List Nat} (h : (10 : Nat) ∉ l) : rstripNl (l ++ [10]) = l := by
  have hrev : (10 : Nat) ∉ l.reverse := fun hm => h (List.mem_reverse.mp hm)
  simp only [rstripNl, List.reverse_append, List.reverse_cons, List.reverse_nil,
    List.nil_append, List.singleton_append, List.dropWhile_cons]
  simp [dropWhile_beq10_of_not_mem hrev]

theorem digitsToNat_append_digit (l : List Nat) (d : Nat) :
    digitsToNat (l ++ [d]) = digitsToNat l * 10 + (d - 48) := by
  simp [digitsToNat, List.foldl_append]

theorem natDigitsF_spec : ∀ (fuel n : Nat), n < fuel →
    natDigitsF fuel n ≠ [] ∧ (∀ d ∈ natDigitsF fuel n, 48 ≤ d ∧ d ≤ 57) ∧
    digitsToNat (natDigitsF fuel n) = n := by
  intro fuel
  induction fuel with
  | zero => intro n h; omega
  | succ fuel ih =>
    intro n h
    by_cases hn : n < 10
    · refine ⟨by simp [natDigitsF, hn], ?_, ?_⟩
      · intro d hd
        simp [natDigitsF, hn] at hd
        omega
      · simp [natDigitsF, hn, digitsToNat]
    · have hdiv : n / 10 < fuel := by omega
      obtain ⟨ih1, ih2, ih3⟩ := ih (n / 10) hdiv
      have hunf : natDigitsF (fuel + 1) n = natDigitsF fuel (n / 10) ++ [48 + n % 10] := by
        simp [natDigitsF, hn]
      refine ⟨by simp [hunf], ?_, ?_⟩
      · intro d hd
        rw [hunf] at hd
        rcases List.mem_append.mp hd with hd' | hd'
        · exact ih2 d hd'
        · simp at hd'
          omega
      · rw [hunf, digitsToNat_append_digit, ih3]
        omega

theorem natDigits_spec (n : Nat) : natDigits n ≠ [] ∧
    (∀ d ∈ natDigits n, 48 ≤ d ∧ d ≤ 57) ∧ digitsToNat (natDigits n) = n :=
  natDigitsF_spec (n + 1) n (Nat.lt_succ_self n)

theorem not_mem_natDigits {b n : Nat} (hb : b < 48 ∨ 57 < b) : b ∉ natDigits n := by
  intro hm
  have := (natDigits_spec n).2.1 b hm
  omega

theorem dropWhile_isSpace_of_digit {l : List Nat} (h : ∀ d ∈ l, 48 ≤ d ∧ d ≤ 57) :
    l.dropWhile isSpace = l := by
  cases l with
  | nil => rfl
  | cons b t =>
    have hb := h b (List.mem_cons_self _ _)
    have hsp : isSpace b = false := by
      simp [isSpace]
      omega
    simp [List.dropWhile_cons, hsp]

theorem digitGroupAux_digits (l : List Nat) : ∀ (acc : Nat),
    (∀ d ∈ l, 48 ≤ d ∧ d ≤ 57) →
    digitGroupAux acc l = some (l.foldl (fun a b => a * 10 + (b - 48)) acc) := by
  induction l with
  | nil => intro acc _; rfl
  | cons b rest ih =>
    intro acc h
    have hb := h b (List.mem_cons_self _ _)
    have hbd : isDigit b = true := by
      simp [isDigit]
      omega
    rw [List.foldl_cons, digitGroupAux.eq_def]
    simp only [hbd, if_true]
    exact ih _ (fun d hd => h d (List.mem_cons_of_mem _ hd))

theorem digitGroup?_digits (l : List Nat) (hne : l ≠ [])
    (hdig : ∀ d ∈ l, 48 ≤ d ∧ d ≤ 57) :
    digitGroup? l = some (digitsToNat l) := by
  cases l with
  | nil => exact absurd rfl hne
  | cons c rest =>
    have hc := hdig c (List.mem_cons_self _ _)
    have hcd : isDigit c = true := by
      simp [isDigit]
      omega
    simp only [digitGroup?, hcd, if_true]
    rw [digitGroupAux_digits rest (c - 48)
      (fun d hd => hdig d (List.mem_cons_of_mem _ hd))]
    simp [digitsToNat]

theorem pyInt?_natDigits (n : Nat) : pyInt? (natDigits n) = some (n : Int) := by
  obtain ⟨hne, hdig, hval⟩ := natDigits_spec n
  have h1 : (natDigits n).dropWhile isSpace = natDigits n := dropWhile_isSpace_of_digit hdig
  have h2 : (natDigits n).reverse.dropWhile isSpace = (natDigits n).reverse :=
    dropWhile_isSpace_of_digit (fun d hd => hdig d (List.mem_reverse.mp hd))
  have hgrp : digitGroup? (natDigits n) = some (digitsToNat (natDigits n)) :=
    digitGroup?_digits _ hne hdig
  cases hd : natDigits n with
  | nil => exact absurd hd hne
  | cons c rest =>
    rw [hd] at h1 h2 hval hgrp
    have hc := hdig c (hd ▸ List.mem_cons_self _ _)
    have hc43 : ¬(c = 43) := by omega
    have hc45 : ¬(c = 45) := by omega
    simp only [pyInt?, h1, h2, List.reverse_reverse, hc43, hc45, if_false, hgrp,
      Option.map_some', hval]
    rfl

/-- Reading one header line: with `pending c = hb ++ 10 :: rest` and no
newline inside `hb`, `recv_line` yields exactly the header line and
`rstrip` recovers `hb`. -/
theorem sessionStep_line (c : Conn) (hv : ValidNet c) (hb rest : List Nat)
    (hp : pending c = hb ++ 10 :: rest) (h10 : (10 : Nat) ∉ hb) :
    ∃ c₁, recv_line c = some (hb ++ [10], c₁) ∧ pending c₁ = rest ∧ ValidNet c₁ ∧
      rstripNl (hb ++ [10]) = hb := by
  have hmem : (10 : Nat) ∈ pending c := by
    rw [hp]
    exact List.mem_append_right _ (List.mem_cons_self _ _)
  obtain ⟨l, c₁, e, ea, eb, ec⟩ := recv_line_total c hv hmem
  have hTW : (hb ++ 10 :: rest).takeWhile (fun b => b != 10) = hb ∧
      (hb ++ 10 :: rest).dropWhile (fun b => b != 10) = 10 :: rest := by
    constructor
    · rw [List.takeWhile_append_of_pos]
      · simp [List.takeWhile_cons]
      · intro a ha
        have : a ≠ 10 := fun e' => h10 (e' ▸ ha)
        simpa using this
    · rw [List.dropWhile_append_of_pos]
      · simp [List.dropWhile_cons]
      · intro a ha
        have : a ≠ 10 := fun e' => h10 (e' ▸ ha)
        simpa using this
  have hlh : lineHead (pending c) = hb ++ [10] := by
    rw [hp, lineHead, hTW.1]
  have hlr : lineRest (pending c) = rest := by
    rw [hp, lineRest, hTW.2]
    rfl
  rw [hlh] at ea
  rw [hlr] at eb
  subst ea
  exact ⟨c₁, e, eb, ec, rstripNl_line h10⟩


theorem fileTag_take4 (X : List Nat) : (fileTag ++ X).take 4 = [70, 73, 76, 69] := rfl

theorem fileTag_take5 (X : List Nat) : (fileTag ++ X).take 5 = fileTag := rfl

/-- Decoding a canonically encoded file frame: `sessionStep` on a stream
beginning with `encodeFileFrame fn data` produces exactly the
`FileTransfer` event with the same filename, the payload length as size,
and a byte-exact payload, consuming exactly the frame. -/
theorem sessionStep_decode_file (c : Conn) (hv : ValidNet c) (fn data more : List Nat)
    (hp : pending c = encodeFileFrame fn data ++ more)
    (h124 : (124 : Nat) ∉ fn) (h10 : (10 : Nat) ∉ fn) :
    ∃ c', sessionStep c = Step.ok (Event.file fn (data.length : Int) data) c' ∧
      pending c' = more ∧ ValidNet c' := by
  have hform : pending c
      = (fileTag ++ (fn ++ 124 :: natDigits data.length)) ++ 10 :: (data ++ more) := by
    rw [hp]
    simp [encodeFileFrame, List.append_assoc]
  have hbno10 : (10 : Nat) ∉ fileTag ++ (fn ++ 124 :: natDigits data.length) := by
    intro hm
    rcases List.mem_append.mp hm with hm | hm
    · simp [fileTag] at hm
    · rcases List.mem_append.mp hm with hm | hm
      · exact h10 hm
      · rcases List.mem_cons.mp hm with hm | hm
        · exact absurd hm (by decide)
        · exact not_mem_natDigits (by omega) hm
  obtain ⟨c₁, e, eb, ec, ehdr⟩ := sessionStep_line c hv _ _ hform hbno10
  have hsplit : pySplit 124 (fileTag ++ (fn ++ 124 :: natDigits data.length))
      = [[70, 73, 76, 69], fn, natDigits data.length] := by
    have h1 : fileTag ++ (fn ++ 124 :: natDigits data.length)
        = [70, 73, 76, 69] ++ 124 :: (fn ++ 124 :: natDigits data.length) := by
      simp [fileTag]
    rw [h1, pySplit_sep_append 124 _ _ (by decide),
      pySplit_sep_append 124 _ _ h124,
      pySplit_no_sep 124 _
        (fun hm => absurd ((natDigits_spec data.length).2.1 124 hm) (by omega))]
  have hlenn : (0 : Int) ≤ (data.length : Int) := by omega
  have htn : ((data.length : Int)).toNat = data.length := by omega
  have hple : (data.length : Int) ≤ ((pending c₁).length : Int) := by
    rw [eb, List.length_append]
    push_cast
    omega
  obtain ⟨bs, c₂, e2, e2a, e2b, e2c⟩ := recv_exact_total _ c₁ hlenn ec hple
  have hbs : bs = data := by
    rw [e2a, eb, htn, List.take_append_eq_append_take, List.take_length, Nat.sub_self]
    simp
  have hp2 : pending c₂ = more := by
    rw [e2b, eb, htn, List.drop_append_eq_append_drop, List.drop_length, Nat.sub_self]
    simp
  refine ⟨c₂, ?_, hp2, e2c⟩
  rw [hbs] at e2
  simp only [sessionStep, e, ehdr, fileTag_take4, fileTag_take5, hsplit,
    pyInt?_natDigits, e2]
  simp [msgTag]

/-- An unknown tag: no frame, the warning event carries the header, and
exactly the header line is consumed. -/
theorem sessionStep_unknown (c : Conn) (hv : ValidNet c) (hb rest : List Nat)
    (hp : pending c = hb ++ 10 :: rest) (h10 : (10 : Nat) ∉ hb)
    (hm : hb.take 4 ≠ msgTag) (hf : hb.take 5 ≠ fileTag) :
    ∃ c₁, sessionStep c = Step.ok (Event.unknown hb) c₁ ∧
      pending c₁ = rest ∧ ValidNet c₁ := by
  obtain ⟨c₁, e, eb, ec, ehdr⟩ := sessionStep_line c hv hb rest hp h10
  refine ⟨c₁, ?_, eb, ec⟩
  simp only [sessionStep, e, ehdr]
  rw [if_neg hm, if_neg hf]

/-- A `FILE|` header that does not split into exactly 3 fields: the
`badHeader` warning, no frame, only the header line consumed. -/
theorem sessionStep_badHeader (c : Conn) (hv : ValidNet c) (hb rest : List Nat)
    (hp : pending c = hb ++ 10 :: rest) (h10 : (10 : Nat) ∉ hb)
    (hf : hb.take 5 = fileTag) (hcnt : (pySplit 124 hb).length ≠ 3) :
    ∃ c₁, sessionStep c = Step.ok (Event.badHeader hb) c₁ ∧
      pending c₁ = rest ∧ ValidNet c₁ := by
  obtain ⟨c₁, e, eb, ec, ehdr⟩ := sessionStep_line c hv hb rest hp h10
  have hm : hb.take 4 ≠ msgTag := by
    have h45 : hb.take 4 = [70, 73, 76, 69] := by
      have := List.take_take 4 5 hb
      simp only [show min 4 5 = 4 from rfl] at this
      rw [← this, hf]
      rfl
    rw [h45]
    decide
  refine ⟨c₁, ?_, eb, ec⟩
  simp only [sessionStep, e, ehdr]
  rw [if_neg hm, if_pos hf]
  rcases hsp : pySplit 124 hb with _ | ⟨a, _ | ⟨b, _ | ⟨d, _ | ⟨g, tl⟩⟩⟩⟩
  · rfl
  · rfl
  · rfl
  · rw [hsp] at hcnt
    simp at hcnt
  · rfl

/-- A `FILE|` header whose size field fails `int` parsing: the `badSize`
warning, no frame, no payload byte consumed, only the header line
consumed. -/
theorem sessionStep_badSize (c : Conn) (hv : ValidNet c) (fn sstr rest : List Nat)
    (hp : pending c = (fileTag ++ (fn ++ 124 :: sstr)) ++ 10 :: rest)
    (hfn124 : (124 : Nat) ∉ fn) (hfn10 : (10 : Nat) ∉ fn)
    (hs124 : (124 : Nat) ∉ sstr) (hs10 : (10 : Nat) ∉ sstr)
    (hbad : pyInt? sstr = none) :
    ∃ c₁, sessionStep c = Step.ok (Event.badSize sstr) c₁ ∧
      pending c₁ = rest ∧ ValidNet c₁ := by
  have hbno10 : (10 : Nat) ∉ fileTag ++ (fn ++ 124 :: sstr) := by
    intro hm
    rcases List.mem_append.mp hm with hm | hm
    · simp [fileTag] at hm
    · rcases List.mem_append.mp hm with hm | hm
      · exact hfn10 hm
      · rcases List.mem_cons.mp hm with hm | hm
        · exact absurd hm (by decide)
        · exact hs10 hm
  obtain ⟨c₁, e, eb, ec, ehdr⟩ := sessionStep_line c hv _ rest hp hbno10
  have hsplit : pySplit 124 (fileTag ++ (fn ++ 124 :: sstr))
      = [[70, 73, 76, 69], fn, sstr] := by
    have h1 : fileTag ++ (fn ++ 124 :: sstr)
        = [70, 73, 76, 69] ++ 124 :: (fn ++ 124 :: sstr) := by
      simp [fileTag]
    rw [h1, pySplit_sep_append 124 _ _ (by decide),
      pySplit_sep_append 124 _ _ hfn124, pySplit_no_sep 124 _ hs124]
  refine ⟨c₁, ?_, eb, ec⟩
  simp only [sessionStep, e, ehdr, fileTag_take4, fileTag_take5, hsplit, hbad]
  simp [msgTag]


/-! Registry and broadcast lemmas. -/

theorem cid_closeConn (c : Client) : (closeConn c).cid = c.cid := rfl

theorem cid_appendRcvd (bs : List Nat) (c : Client) : (appendRcvd bs c).cid = c.cid := rfl

theorem getConn_some_facts {w : World} {j : Nat} {cj : Client}
    (h : getConn w j = some cj) : cj ∈ w.conns ∧ cj.cid = j := by
  refine ⟨List.mem_of_find?_eq_some h, ?_⟩
  have := List.find?_some h
  simpa using this

theorem getConn_map_conns (w : World) (j : Nat) (F : Client → Client) (reg : List Nat)
    (hcid : ∀ c, (F c).cid = c.cid) :
    getConn ⟨w.conns.map F, reg⟩ j = (getConn w j).map F := by
  show List.find? (fun c => c.cid == j) (w.conns.map F) = _
  rw [List.find?_map]
  have hpred : ((fun c : Client => c.cid == j) ∘ F) = (fun c : Client => c.cid == j) := by
    funext c
    simp [Function.comp, hcid]
  rw [hpred]
  rfl

theorem cid_unique {w : World} (hcid : cidNodup w) {c₁ c₂ : Client}
    (h₁ : c₁ ∈ w.conns) (h₂ : c₂ ∈ w.conns) (he : c₁.cid = c₂.cid) : c₁ = c₂ :=
  List.inj_on_of_nodup_map hcid h₁ h₂ he

theorem bcStep_conns (h p : List Nat) (w : World) (j : Nat) (hcid : cidNodup w) :
    (bcStep h p w j).conns = w.conns.map (fun c => if c.cid = j then
        (if c.failing then closeConn c else appendRcvd (h ++ p) c) else c) ∧
    (bcStep h p w j).registry
      = (if targetFails w j then w.registry.erase j else w.registry) := by
  cases hg : getConn w j with
  | none =>
    have hnone : ∀ c ∈ w.conns, c.cid ≠ j := by
      intro c hc
      have := List.find?_eq_none.mp hg c hc
      simpa using this
    have hmap : w.conns.map (fun c => if c.cid = j then
        (if c.failing then closeConn c else appendRcvd (h ++ p) c) else c) = w.conns := by
      rw [List.map_congr_left fun c hc => if_neg (hnone c hc)]
      simp
    have htf : targetFails w j = false := by
      simp [targetFails, hg]
    simp [bcStep, hg, hmap, htf]
  | some cj =>
    obtain ⟨hmem, hjcid⟩ := getConn_some_facts hg
    have htf : targetFails w j = cj.failing := by
      simp [targetFails, hg]
    have hpt : ∀ c ∈ w.conns, c.cid = j →
        (if c.failing then closeConn c else appendRcvd (h ++ p) c)
        = (if cj.failing then closeConn c else appendRcvd (h ++ p) c) := by
      intro c hc hcj
      have : c = cj := cid_unique hcid hc hmem (by rw [hcj, hjcid])
      rw [this]
    cases hfail : cj.failing with
    | true =>
      have hconns : (remove_client j w).conns = w.conns.map (fun c => if c.cid = j then
          (if c.failing then closeConn c else appendRcvd (h ++ p) c) else c) := by
        show w.conns.map _ = _
        apply List.map_congr_left
        intro c hc
        by_cases hcj : c.cid = j
        · rw [if_pos hcj, if_pos hcj, hpt c hc hcj, if_pos hfail]
        · rw [if_neg hcj, if_neg hcj]
      refine ⟨?_, ?_⟩
      · simp [bcStep, hg, hfail, hconns]
      · simp [bcStep, hg, hfail, htf, remove_client, updateConn]
    | false =>
      have hconns : (updateConn j (appendRcvd (h ++ p)) w).conns
          = w.conns.map (fun c => if c.cid = j then
          (if c.failing then closeConn c else appendRcvd (h ++ p) c) else c) := by
        show w.conns.map _ = _
        apply List.map_congr_left
        intro c hc
        by_cases hcj : c.cid = j
        · rw [if_pos hcj, if_pos hcj, hpt c hc hcj, if_neg (by simp [hfail])]
        · rw [if_neg hcj, if_neg hcj]
      refine ⟨?_, ?_⟩
      · simp [bcStep, hg, hfail, hconns]
      · simp [bcStep, hg, hfail, htf, updateConn]

theorem bcStep_cid (h p : List Nat) (w : World) (j : Nat) (hcid : cidNodup w) :
    (bcStep h p w j).conns.map Client.cid = w.conns.map Client.cid := by
  rw [(bcStep_conns h p w j hcid).1, List.map_map]
  apply List.map_congr_left
  intro c _
  by_cases hcj : c.cid = j <;> cases hf : c.failing <;>
    simp [Function.comp, hcj, hf, closeConn, appendRcvd]

theorem bcStep_cidNodup (h p : List Nat) (w : World) (j : Nat) (hcid : cidNodup w) :
    cidNodup (bcStep h p w j) := by
  show ((bcStep h p w j).conns.map Client.cid).Nodup
  rw [bcStep_cid h p w j hcid]
  exact hcid

theorem targetFails_bcStep (h p : List Nat) (w : World) (j j' : Nat) (hcid : cidNodup w) :
    targetFails (bcStep h p w j) j' = targetFails w j' := by
  have hmap := (bcStep_conns h p w j hcid).1
  have hget : getConn (bcStep h p w j) j'
      = (getConn w j').map (fun c => if c.cid = j then
          (if c.failing then closeConn c else appendRcvd (h ++ p) c) else c) := by
    have := getConn_map_conns w j' (fun c => if c.cid = j then
        (if c.failing then closeConn c else appendRcvd (h ++ p) c) else c)
        (bcStep h p w j).registry
        (fun c => by by_cases hcj : c.cid = j <;> cases hf : c.failing <;>
          simp [hcj, hf, closeConn, appendRcvd])
    rw [← hmap] at this
    exact this
  rw [targetFails, hget]
  cases hg : getConn w j' with
  | none => simp [targetFails, hg]
  | some cj =>
    by_cases hcj : cj.cid = j <;> cases hf : cj.failing <;>
      simp [targetFails, hg, hcj, hf, closeConn, appendRcvd]

theorem foldl_erase_congr (f g : Nat → Bool) : ∀ (ts r : List Nat),
    (∀ j ∈ ts, f j = g j) →
    ts.foldl (fun r j => if f j then r.erase j else r) r
      = ts.foldl (fun r j => if g j then r.erase j else r) r := by
  intro ts
  induction ts with
  | nil => intro r _; rfl
  | cons j ts ih =>
    intro r hfg
    simp only [List.foldl_cons]
    rw [hfg j (List.mem_cons_self _ _),
      ih _ (fun j' hj' => hfg j' (List.mem_cons_of_mem _ hj'))]

theorem bcFold_spec (h p : List Nat) : ∀ (ts : List Nat) (w : World),
    cidNodup w → ts.Nodup →
    (ts.foldl (bcStep h p) w).conns = w.conns.map (fun c => if c.cid ∈ ts then
        (if c.failing then closeConn c else appendRcvd (h ++ p) c) else c) ∧
    (ts.foldl (bcStep h p) w).registry
      = ts.foldl (fun r j => if targetFails w j then r.erase j else r) w.registry := by
  intro ts
  induction ts with
  | nil =>
    intro w hcid _
    constructor
    · rw [List.map_congr_left fun c _ => if_neg (by simp)]
      simp
    · rfl
  | cons j ts ih =>
    intro w hcid hnd
    have hjts : j ∉ ts := (List.nodup_cons.mp hnd).1
    have hndts : ts.Nodup := (List.nodup_cons.mp hnd).2
    obtain ⟨ihc, ihr⟩ := ih (bcStep h p w j) (bcStep_cidNodup h p w j hcid) hndts
    obtain ⟨hsc, hsr⟩ := bcStep_conns h p w j hcid
    constructor
    · show (ts.foldl (bcStep h p) (bcStep h p w j)).conns = _
      rw [ihc, hsc, List.map_map]
      apply List.map_congr_left
      intro c _
      by_cases hcj : c.cid = j
      · subst hcj
        cases hf : c.failing <;>
          simp [Function.comp, hf, closeConn, appendRcvd, hjts]
      · by_cases hmem : c.cid ∈ ts <;>
          simp [Function.comp, List.mem_cons, hcj, hmem]
    · show (ts.foldl (bcStep h p) (bcStep h p w j)).registry = _
      rw [ihr, hsr,
        foldl_erase_congr (targetFails (bcStep h p w j)) (targetFails w) ts _
          (fun j' _ => targetFails_bcStep h p w j j' hcid)]
      rfl

theorem foldl_erase_nodup (f : Nat → Bool) : ∀ (ts r : List Nat), r.Nodup →
    (ts.foldl (fun r j => if f j then r.erase j else r) r).Nodup := by
  intro ts
  induction ts with
  | nil => intro r hr; exact hr
  | cons j ts ih =>
    intro r hr
    simp only [List.foldl_cons]
    by_cases hf : f j
    · rw [if_pos hf]
      exact ih _ (hr.erase j)
    · rw [if_neg hf]
      exact ih _ hr

theorem foldl_erase_not_mem (f : Nat → Bool) (x : Nat) : ∀ (ts r : List Nat), x ∉ r →
    x ∉ ts.foldl (fun r j => if f j then r.erase j else r) r := by
  intro ts
  induction ts with
  | nil => intro r hr; exact hr
  | cons j ts ih =>
    intro r hr
    simp only [List.foldl_cons]
    by_cases hf : f j
    · rw [if_pos hf]
      exact ih _ (fun hm => hr (List.mem_of_mem_erase hm))
    · rw [if_neg hf]
      exact ih _ hr

theorem foldl_erase_keeps (f : Nat → Bool) (x : Nat) : ∀ (ts r : List Nat), x ∈ r →
    (∀ j ∈ ts, f j = true → j ≠ x) →
    x ∈ ts.foldl (fun r j => if f j then r.erase j else r) r := by
  intro ts
  induction ts with
  | nil => intro r hr _; exact hr
  | cons j ts ih =>
    intro r hr hno
    simp only [List.foldl_cons]
    by_cases hf : f j
    · rw [if_pos hf]
      refine ih _ ?_ (fun j' hj' => hno j' (List.mem_cons_of_mem _ hj'))
      exact (List.mem_erase_of_ne
        (Ne.symm (hno j (List.mem_cons_self _ _) hf))).mpr hr
    · rw [if_neg hf]
      exact ih _ hr (fun j' hj' => hno j' (List.mem_cons_of_mem _ hj'))

theorem foldl_erase_removes (f : Nat → Bool) (x : Nat) : ∀ (ts r : List Nat), r.Nodup →
    x ∈ ts → f x = true →
    x ∉ ts.foldl (fun r j => if f j then r.erase j else r) r := by
  intro ts
  induction ts with
  | nil => intro r _ hx; cases hx
  | cons j ts ih =>
    intro r hr hx hfx
    simp only [List.foldl_cons]
    by_cases hj : j = x
    · subst hj
      rw [if_pos hfx]
      exact foldl_erase_not_mem f j ts _ (hr.not_mem_erase)
    · rcases List.mem_cons.mp hx with hx' | hx'
      · exact absurd hx'.symm hj
      · by_cases hf : f j
        · rw [if_pos hf]
          exact ih _ (hr.erase j) hx' hfx
        · rw [if_neg hf]
          exact ih _ hr hx' hfx

theorem foldl_erase_all_false (f : Nat → Bool) : ∀ (ts r : List Nat),
    (∀ j ∈ ts, f j = false) →
    ts.foldl (fun r j => if f j then r.erase j else r) r = r := by
  intro ts
  induction ts with
  | nil => intro r _; rfl
  | cons j ts ih =>
    intro r hall
    simp only [List.foldl_cons]
    rw [if_neg (by rw [hall j (List.mem_cons_self _ _)]; simp),
      ih _ (fun j' hj' => hall j' (List.mem_cons_of_mem _ hj'))]


theorem broadcast_spec (s : Nat) (h p : List Nat) (w : World)
    (hcid : cidNodup w) (hreg : w.registry.Nodup) :
    (broadcast s h p w).conns = w.conns.map (fun c =>
        if c.cid ∈ w.registry.filter (fun j => j != s) then
          (if c.failing then closeConn c else appendRcvd (h ++ p) c) else c) ∧
    (broadcast s h p w).registry = (w.registry.filter (fun j => j != s)).foldl
        (fun r j => if targetFails w j then r.erase j else r) w.registry :=
  bcFold_spec h p _ w hcid (hreg.filter _)

theorem getConn_broadcast (s : Nat) (h p : List Nat) (w : World)
    (hcid : cidNodup w) (hreg : w.registry.Nodup) (j : Nat) :
    getConn (broadcast s h p w) j = (getConn w j).map (fun c =>
      if c.cid ∈ w.registry.filter (fun i => i != s) then
        (if c.failing then closeConn c else appendRcvd (h ++ p) c) else c) := by
  show List.find? (fun c => c.cid == j) (broadcast s h p w).conns = _
  rw [(broadcast_spec s h p w hcid hreg).1, List.find?_map]
  have hpred : ((fun c : Client => c.cid == j) ∘ (fun c =>
      if c.cid ∈ w.registry.filter (fun i => i != s) then
        (if c.failing then closeConn c else appendRcvd (h ++ p) c) else c))
      = (fun c : Client => c.cid == j) := by
    funext c
    by_cases hcc : c.cid ∈ w.registry.filter (fun i => i != s) <;>
      cases hf : c.failing <;> simp [Function.comp, hcc, hf, closeConn, appendRcvd]
  rw [hpred]
  rfl

theorem broadcast_cidNodup (s : Nat) (h p : List Nat) (w : World)
    (hcid : cidNodup w) (hreg : w.registry.Nodup) :
    cidNodup (broadcast s h p w) := by
  show ((broadcast s h p w).conns.map Client.cid).Nodup
  rw [(broadcast_spec s h p w hcid hreg).1, List.map_map]
  have : (Client.cid ∘ (fun c => if c.cid ∈ w.registry.filter (fun j => j != s) then
      (if c.failing then closeConn c else appendRcvd (h ++ p) c) else c))
      = Client.cid := by
    funext c
    by_cases hcc : c.cid ∈ w.registry.filter (fun j => j != s) <;>
      cases hf : c.failing <;> simp [Function.comp, hcc, hf, closeConn, appendRcvd]
  rw [this]
  exact hcid

theorem broadcast_healthy (s : Nat) (h p : List Nat) (w : World)
    (hcid : cidNodup w) (hreg : w.registry.Nodup)
    (hh : ∀ j ∈ w.registry, j ≠ s → targetFails w j = false) :
    (broadcast s h p w).registry = w.registry ∧
    cidNodup (broadcast s h p w) ∧
    (∀ j ∈ w.registry, j ≠ s →
      getConn (broadcast s h p w) j = (getConn w j).map (appendRcvd (h ++ p))) ∧
    getConn (broadcast s h p w) s = getConn w s ∧
    (∀ j, j ∉ w.registry → getConn (broadcast s h p w) j = getConn w j) := by
  refine ⟨?_, broadcast_cidNodup s h p w hcid hreg, ?_, ?_, ?_⟩
  · rw [(broadcast_spec s h p w hcid hreg).2]
    apply foldl_erase_all_false
    intro j hj
    have hj' := List.mem_filter.mp hj
    exact hh j hj'.1 (by simpa using hj'.2)
  · intro j hj hjs
    rw [getConn_broadcast s h p w hcid hreg j]
    cases hg : getConn w j with
    | none => rfl
    | some cj =>
      obtain ⟨hmem, hjcid⟩ := getConn_some_facts hg
      have hfil : cj.cid ∈ w.registry.filter (fun i => i != s) := by
        rw [hjcid]
        exact List.mem_filter.mpr ⟨hj, by simpa using hjs⟩
      have hfl : cj.failing = false := by
        have := hh j hj hjs
        simpa [targetFails, hg] using this
      simp only [Option.map_some']
      rw [if_pos hfil, hfl]
      simp
  · rw [getConn_broadcast s h p w hcid hreg s]
    cases hg : getConn w s with
    | none => rfl
    | some cs =>
      obtain ⟨hmem, hscid⟩ := getConn_some_facts hg
      have hfil : cs.cid ∉ w.registry.filter (fun i => i != s) := by
        rw [hscid]
        intro hx
        have := (List.mem_filter.mp hx).2
        simp at this
      simp only [Option.map_some']
      rw [if_neg hfil]
  · intro j hj
    rw [getConn_broadcast s h p w hcid hreg j]
    cases hg : getConn w j with
    | none => rfl
    | some cj =>
      obtain ⟨hmem, hjcid⟩ := getConn_some_facts hg
      have hfil : cj.cid ∉ w.registry.filter (fun i => i != s) := by
        rw [hjcid]
        intro hx
        exact hj (List.mem_filter.mp hx).1
      simp only [Option.map_some']
      rw [if_neg hfil]

theorem broadcast_oneFail (s b : Nat) (h p : List Nat) (w : World)
    (hcid : cidNodup w) (hreg : w.registry.Nodup)
    (hb : b ∈ w.registry) (hbs : b ≠ s) (hbf : targetFails w b = true)
    (hrest : ∀ j ∈ w.registry, j ≠ s → j ≠ b → targetFails w j = false) :
    (b ∉ (broadcast s h p w).registry) ∧
    (∀ j ∈ w.registry, j ≠ b → j ∈ (broadcast s h p w).registry) ∧
    (∀ j, j ∈ (broadcast s h p w).registry → j ∈ w.registry) ∧
    (broadcast s h p w).registry.Nodup ∧
    cidNodup (broadcast s h p w) ∧
    getConn (broadcast s h p w) b = (getConn w b).map closeConn ∧
    (∀ j ∈ w.registry, j ≠ s → j ≠ b →
      getConn (broadcast s h p w) j = (getConn w j).map (appendRcvd (h ++ p))) ∧
    getConn (broadcast s h p w) s = getConn w s ∧
    (∀ j ∈ (broadcast s h p w).registry, j ≠ s →
      targetFails (broadcast s h p w) j = false) := by
  have hbfil : b ∈ w.registry.filter (fun i => i != s) :=
    List.mem_filter.mpr ⟨hb, by simpa using hbs⟩
  have hsub : ∀ j, j ∈ (broadcast s h p w).registry → j ∈ w.registry := by
    intro j hj
    by_contra hnr
    rw [(broadcast_spec s h p w hcid hreg).2] at hj
    exact foldl_erase_not_mem _ j _ _ hnr hj
  have hnotb : b ∉ (broadcast s h p w).registry := by
    rw [(broadcast_spec s h p w hcid hreg).2]
    exact foldl_erase_removes _ b _ _ hreg hbfil hbf
  have hkeep : ∀ j ∈ w.registry, j ≠ b → j ∈ (broadcast s h p w).registry := by
    intro j hj hjb
    rw [(broadcast_spec s h p w hcid hreg).2]
    apply foldl_erase_keeps _ j _ _ hj
    intro j' hj' hfj'
    have hj'' := List.mem_filter.mp hj'
    intro hje
    subst hje
    have hj's : j' ≠ s := by simpa using hj''.2
    by_cases hj'b : j' = b
    · exact hjb hj'b
    · rw [hrest j' hj''.1 hj's hj'b] at hfj'
      cases hfj'
  have hgetb : getConn (broadcast s h p w) b = (getConn w b).map closeConn := by
    rw [getConn_broadcast s h p w hcid hreg b]
    cases hg : getConn w b with
    | none =>
      rw [targetFails, hg] at hbf
      cases hbf
    | some cb =>
      obtain ⟨hmem, hbcid⟩ := getConn_some_facts hg
      have hfl : cb.failing = true := by
        simpa [targetFails, hg] using hbf
      have hfil : cb.cid ∈ w.registry.filter (fun i => i != s) := by
        rw [hbcid]
        exact hbfil
      simp only [Option.map_some']
      rw [if_pos hfil, hfl]
      simp
  have hgetj : ∀ j ∈ w.registry, j ≠ s → j ≠ b →
      getConn (broadcast s h p w) j = (getConn w j).map (appendRcvd (h ++ p)) := by
    intro j hj hjs hjb
    rw [getConn_broadcast s h p w hcid hreg j]
    cases hg : getConn w j with
    | none => rfl
    | some cj =>
      obtain ⟨hmem, hjcid⟩ := getConn_some_facts hg
      have hfil : cj.cid ∈ w.registry.filter (fun i => i != s) := by
        rw [hjcid]
        exact List.mem_filter.mpr ⟨hj, by simpa using hjs⟩
      have hfl : cj.failing = false := by
        have := hrest j hj hjs hjb
        simpa [targetFails, hg] using this
      simp only [Option.map_some']
      rw [if_pos hfil, hfl]
      simp
  have hgets : getConn (broadcast s h p w) s = getConn w s := by
    rw [getConn_broadcast s h p w hcid hreg s]
    cases hg : getConn w s with
    | none => rfl
    | some cs =>
      obtain ⟨hmem, hscid⟩ := getConn_some_facts hg
      have hfil : cs.cid ∉ w.registry.filter (fun i => i != s) := by
        rw [hscid]
        intro hx
        have := (List.mem_filter.mp hx).2
        simp at this
      simp only [Option.map_some']
      rw [if_neg hfil]
  refine ⟨hnotb, hkeep, hsub, ?_, broadcast_cidNodup s h p w hcid hreg,
    hgetb, hgetj, hgets, ?_⟩
  · rw [(broadcast_spec s h p w hcid hreg).2]
    exact foldl_erase_nodup _ _ _ hreg
  · intro j hj hjs
    have hjr : j ∈ w.registry := hsub j hj
    have hjb : j ≠ b := fun hje => hnotb (hje ▸ hj)
    rw [targetFails, hgetj j hjr hjs hjb]
    cases hg : getConn w j with
    | none => rfl
    | some cj =>
      have hfl : cj.failing = false := by
        have := hrest j hjr hjs hjb
        simpa [targetFails, hg] using this
      simp [appendRcvd, hfl]


theorem remove_client_registry (i : Nat) (w : World) :
    (remove_client i w).registry = w.registry.erase i := rfl

theorem getConn_remove_client (i j : Nat) (w : World) :
    getConn (remove_client i w) j
      = (getConn w j).map (fun c => if c.cid = i then closeConn c else c) :=
  getConn_map_conns w j (fun c => if c.cid = i then closeConn c else c)
    (w.registry.erase i) (fun c => by by_cases hci : c.cid = i <;> simp [hci, closeConn])

theorem remove_client_idem (i : Nat) (w : World) (hreg : w.registry.Nodup) :
    remove_client i (remove_client i w) = remove_client i w := by
  obtain ⟨conns, reg⟩ := w
  simp only [remove_client, updateConn, List.map_map]
  congr 1
  · apply List.map_congr_left
    intro c _
    by_cases hci : c.cid = i <;> simp [Function.comp, hci, closeConn]
  · exact List.erase_of_not_mem (hreg.not_mem_erase)

theorem remove_client_absent (i : Nat) (w : World) (h : i ∉ w.registry) :
    (remove_client i w).registry = w.registry :=
  List.erase_of_not_mem h

theorem remove_client_not_mem (i : Nat) (w : World) (hreg : w.registry.Nodup) :
    i ∉ (remove_client i w).registry :=
  hreg.not_mem_erase

theorem remove_client_nodup (i : Nat) (w : World) (hreg : w.registry.Nodup) :
    (remove_client i w).registry.Nodup :=
  hreg.erase i

theorem remove_client_closes (i : Nat) (w : World) :
    ∀ cj, getConn w i = some cj →
      getConn (remove_client i w) i = some (closeConn cj) := by
  intro cj hg
  rw [getConn_remove_client, hg]
  simp only [Option.map_some']
  rw [if_pos (getConn_some_facts hg).2]

theorem remove_client_rcvd (i j : Nat) (w : World) :
    ∀ cj, getConn w j = some cj → ∃ cj', getConn (remove_client i w) j = some cj' ∧
      cj'.rcvd = cj.rcvd ∧ cj'.cid = cj.cid := by
  intro cj hg
  rw [getConn_remove_client, hg]
  simp only [Option.map_some']
  by_cases hci : cj.cid = i
  · exact ⟨closeConn cj, by rw [if_pos hci], rfl, rfl⟩
  · exact ⟨cj, by rw [if_neg hci], rfl, rfl⟩

theorem register_nodup (cl : Client) (w : World) (hreg : w.registry.Nodup)
    (hfresh : cl.cid ∉ w.registry) : (register cl w).registry.Nodup := by
  show (w.registry ++ [cl.cid]).Nodup
  refine List.nodup_append.mpr ⟨hreg, List.nodup_singleton _, ?_⟩
  intro x hx hx'
  simp at hx'
  subst hx'
  exact hfresh hx

theorem closeConn_idem (c : Client) : closeConn (closeConn c) = closeConn c := rfl

theorem closeConn_closed (c : Client) : (closeConn c).closed = true := rfl

theorem broadcast_registry_nodup (s : Nat) (h p : List Nat) (w : World)
    (hcid : cidNodup w) (hreg : w.registry.Nodup) :
    (broadcast s h p w).registry.Nodup := by
  rw [(broadcast_spec s h p w hcid hreg).2]
  exact foldl_erase_nodup _ _ _ hreg

/-! Equations of one `handle_client` iteration. -/

theorem handle_client_step_closed (i : Nat) (d : Bool) (c : Conn) (w : World)
    (h : sessionStep c = Step.closed) :
    handle_client_step i d c w = SessionOut.terminated (remove_client i w) := by
  simp [handle_client_step, h]

theorem handle_client_step_msg (i : Nat) (d : Bool) (c : Conn) (w : World)
    (text : List Nat) (c' : Conn) (h : sessionStep c = Step.ok (Event.msg text) c') :
    handle_client_step i d c w = SessionOut.next (Event.msg text)
      [Effect.relay (msgHeader text) []] c' (broadcast i (msgHeader text) [] w) := by
  simp [handle_client_step, h]

theorem handle_client_step_file_ok (i : Nat) (c : Conn) (w : World)
    (fn data : List Nat) (sz : Int) (c' : Conn)
    (h : sessionStep c = Step.ok (Event.file fn sz data) c') :
    handle_client_step i true c w = SessionOut.next (Event.file fn sz data)
      [Effect.save fn data, Effect.relay (fileHeader fn sz) data] c'
      (broadcast i (fileHeader fn sz) data w) := by
  simp [handle_client_step, h]

theorem handle_client_step_file_diskfail (i : Nat) (c : Conn) (w : World)
    (fn data : List Nat) (sz : Int) (c' : Conn)
    (h : sessionStep c = Step.ok (Event.file fn sz data) c') :
    handle_client_step i false c w = SessionOut.terminated (remove_client i w) := by
  simp [handle_client_step, h]

theorem fileHeader_natDigits (fn : List Nat) (L : Nat) :
    fileHeader fn (L : Int) = fileTag ++ utf8Norm fn ++ [124] ++ natDigits L ++ [10] := by
  have h1 : ¬((L : Int) < 0) := by omega
  have h2 : ((L : Int)).toNat = L := by omega
  simp [fileHeader, intDigits, h1, h2]

theorem encode_eq_fileHeader (fn data : List Nat) (hnorm : utf8Norm fn = fn) :
    encodeFileFrame fn data = fileHeader fn (data.length : Int) ++ data := by
  rw [fileHeader_natDigits, hnorm]
  simp [encodeFileFrame, List.append_assoc]

/-- Inversion: a decoded `FileTransfer` event comes from a successful
`recv_exact` of its size, so for a non-negative size the payload has
exactly that many bytes. -/
theorem sessionStep_file_length (c : Conn) (hv : ValidNet c) (fn : List Nat) (sz : Int)
    (data : List Nat) (c' : Conn)
    (hstep : sessionStep c = Step.ok (Event.file fn sz data) c') (hsz : 0 ≤ sz) :
    data.length = sz.toNat := by
  unfold sessionStep at hstep
  cases hl : recv_line c with
  | none =>
    rw [hl] at hstep
    cases hstep
  | some pr =>
    obtain ⟨line, c₁⟩ := pr
    rw [hl] at hstep
    obtain ⟨-, -, hvc₁⟩ := (recv_line_spec c hv).2 line c₁ hl
    simp only at hstep
    split at hstep
    · simp at hstep
    · split at hstep
      · split at hstep
        · split at hstep
          · simp at hstep
          · rename_i size heqint
            split at hstep
            · simp at hstep
            · rename_i d c₂ heqrecv
              simp only [Step.ok.injEq, Event.file.injEq] at hstep
              obtain ⟨⟨hfn, hsz', hd⟩, hc⟩ := hstep
              rw [hsz', hd, hc] at heqrecv
              have hle : sz ≤ ((pending c₁).length : Int) := by
                by_contra hlt
                have hcontra := (recv_exact_none_iff sz c₁ hvc₁).mpr (by omega)
                rw [hcontra] at heqrecv
                cases heqrecv
              obtain ⟨g1, -, -⟩ := recv_exact_some_spec sz c₁ hsz hvc₁ data c' heqrecv
              rw [g1, List.length_take]
              omega
        · simp at hstep
      · simp at hstep


theorem recv_exact_zero (c : Conn) : recv_exact 0 c = some ([], c) := by
  obtain ⟨buf, net⟩ := c
  by_cases hbuf : buf = []
  · subst hbuf
    rw [recv_exact_unfold_nil]
    simp [recvExactLoopF]
  · rw [recv_exact_unfold_cons hbuf]
    have ht : min (0 : Int) (buf.length : Int) = 0 := by omega
    rw [ht]
    have h1 : pySliceTake 0 buf = [] := by simp [pySliceTake]
    have h2 : pySliceDrop 0 buf = buf := by simp [pySliceDrop]
    rw [h1, h2]
    simp [recvExactLoopF]

/-! Claims. -/

/-- C1 counterexample: with the calls `read_line; read_exact(-1)` (a
negative size reachable through a `FILE|name|-1` header), delivering
`"h\n"` then `"XYZ"` in two chunks gives different results than
delivering `"h\nXYZ"` in one chunk: the one-chunk run leaves `"XYZ"` in
the accumulator, and Python slice semantics make `recv_exact(-1)` return
`"XY"` there but `b""` in the two-chunk run.  The claim as stated
(arbitrary `read_exact(n)` calls) is therefore false. -/
theorem c1_counterexample :
    runOps [Op.line, Op.exact (-1)] ⟨[], [[104, 10], [88, 89, 90]]⟩
      ≠ runOps [Op.line, Op.exact (-1)] ⟨[], [[104, 10, 88, 89, 90]]⟩ := by
  decide

/-- C1 (amended): for every finite byte sequence and every partition of
it into non-empty chunks delivered in order, any script of `read_line`
and `read_exact(n)` calls with non-negative `n` returns the same trace
of decoded lines, byte slices and `ConnectionClosed` failures as when
the whole sequence is delivered in one chunk.  (Lines are compared as
raw bytes; the UTF-8 decode the source applies is a function of those
bytes, so equal byte traces give equal decoded traces.) -/
theorem c1_chunking_invariance (ops : List Op) (chunks : List (List Nat))
    (hne : ∀ ch ∈ chunks, ch ≠ [])
    (hnn : ∀ n, Op.exact n ∈ ops → 0 ≤ n) :
    runOps ops ⟨[], chunks⟩ = runOps ops ⟨[], [flat chunks]⟩ := by
  by_cases h0 : chunks = []
  · subst h0
    exact (runOps_empty_chunk ops).symm
  · refine runOps_pending ops _ _ ?_ ?_ ?_ hnn
    · intro ch hm
      exact hne ch hm
    · intro ch hm
      rcases List.mem_cons.mp hm with rfl | hm'
      · exact flat_ne_nil hne h0
      · cases hm'
    · show [] ++ flat chunks = [] ++ flat [flat chunks]
      simp [flat]

theorem c1_chunking_invariance_witness :
    runOps [Op.line, Op.exact 2] ⟨[], [[104], [10, 88], [89]]⟩
      = runOps [Op.line, Op.exact 2] ⟨[], [flat [[104], [10, 88], [89]]]⟩ :=
  c1_chunking_invariance [Op.line, Op.exact 2] [[104], [10, 88], [89]]
    (by decide)
    (by
      intro n hn
      simp [List.mem_cons] at hn
      omega)

/-- C2 counterexample: a filename containing the field separator `|`
(byte 124) breaks the round trip: encoding the frame
`{filename = "|", length = 0, payload = b""}` produces the header
`FILE|||0\n`, which splits into 4 fields and is rejected as a malformed
header instead of decoding back to the frame. -/
theorem c2_counterexample :
    sessionStep ⟨[], [encodeFileFrame [124] []]⟩
      = Step.ok (Event.badHeader [70, 73, 76, 69, 124, 124, 124, 48]) ⟨[], []⟩ := by
  decide

/-- C2 (amended): for every FileTransfer frame whose filename contains
neither `|` (124) nor `\n` (10), encoding it as
`FILE|<filename>|<length>\n` + payload and decoding the resulting byte
stream yields a FileTransfer frame with the same filename, the payload
length as its size, and a byte-exact payload, consuming the whole
stream. -/
theorem c2_roundtrip (fn data : List Nat) (c : Conn) (hv : ValidNet c)
    (hp : pending c = encodeFileFrame fn data)
    (h124 : (124 : Nat) ∉ fn) (h10 : (10 : Nat) ∉ fn) :
    ∃ c', sessionStep c = Step.ok (Event.file fn (data.length : Int) data) c' ∧
      pending c' = [] := by
  obtain ⟨c', h1, h2, -⟩ :=
    sessionStep_decode_file c hv fn data [] (by rw [hp]; simp) h124 h10
  exact ⟨c', h1, h2⟩

theorem c2_roundtrip_witness :
    ∃ c', sessionStep ⟨[], [encodeFileFrame [97] [0, 255]]⟩
        = Step.ok (Event.file [97] (([0, 255] : List Nat).length : Int) [0, 255]) c' ∧
      pending c' = [] :=
  c2_roundtrip [97] [0, 255] ⟨[], [encodeFileFrame [97] [0, 255]]⟩
    (by decide) (by decide) (by decide) (by decide)

/-- C5 counterexample: the size field `-2` parses successfully with
Python's `int` and is NOT treated as a malformed header: on the
one-chunk stream `FILE|a|-2\nXYZ` the decoder produces a FileTransfer
frame with size `-2` whose payload is the buffer slice `X` (Python
`buffer[:-2]`), consuming a payload byte and leaving `YZ` buffered —
contradicting "no frame is produced, no payload bytes are consumed" for
negative sizes. -/
theorem c5_counterexample :
    sessionStep ⟨[], [[70, 73, 76, 69, 124, 97, 124, 45, 50, 10, 88, 89, 90]]⟩
      = Step.ok (Event.file [97] (-2) [88]) ⟨[89, 90], []⟩ := by
  decide

/-- C5 (amended): a `FILE` header whose ASCII size field does not parse
as an integer at all (Python `int` raises `ValueError`, `pyInt?` being
its exact byte-level model on ASCII input, underscore grouping and
whitespace stripping included) is treated as a malformed-header error:
the `badSize` warning event is produced, no frame is decoded, no
payload bytes are consumed beyond the header line, and the session
continues with the next header line.  Negative size fields, by
contrast, parse successfully and are passed to `recv_exact`; non-ASCII
size fields, where `int` of the decoded string also accepts Unicode
digits, are outside the byte-level model and this claim. -/
theorem c5_nonnumeric_size (c : Conn) (hv : ValidNet c) (fn sstr rest : List Nat)
    (hp : pending c = (fileTag ++ (fn ++ 124 :: sstr)) ++ 10 :: rest)
    (hfn124 : (124 : Nat) ∉ fn) (hfn10 : (10 : Nat) ∉ fn)
    (hs124 : (124 : Nat) ∉ sstr) (hs10 : (10 : Nat) ∉ sstr)
    (hascii : ∀ b ∈ sstr, b < 128) (hbad : pyInt? sstr = none) :
    ∃ c₁, sessionStep c = Step.ok (Event.badSize sstr) c₁ ∧
      pending c₁ = rest ∧ ValidNet c₁ :=
  sessionStep_badSize c hv fn sstr rest hp hfn124 hfn10 hs124 hs10 hbad

theorem c5_nonnumeric_size_witness :
    ∃ c₁, sessionStep ⟨[], [[70, 73, 76, 69, 124, 97, 124, 120, 10, 81]]⟩
        = Step.ok (Event.badSize [120]) c₁ ∧ pending c₁ = [81] ∧ ValidNet c₁ :=
  c5_nonnumeric_size ⟨[], [[70, 73, 76, 69, 124, 97, 124, 120, 10, 81]]⟩
    (by decide) [97] [120] [81] (by decide) (by decide) (by decide) (by decide)
    (by decide) (by decide) (by decide)


/-- C3 counterexample: the server re-renders the size field from the
parsed integer, so a frame whose producer wrote the non-canonical size
`01` is relayed with header `FILE|a|1\n` — not the identical bytes the
originating connection produced (`FILE|a|01\n`). -/
theorem c3_counterexample :
    handle_client_step 0 true ⟨[], [[70, 73, 76, 69, 124, 97, 124, 48, 49, 10, 90]]⟩
        ⟨[⟨0, false, [], false⟩, ⟨1, false, [], false⟩], [0, 1]⟩
      = SessionOut.next (Event.file [97] 1 [90])
          [Effect.save [97] [90],
           Effect.relay [70, 73, 76, 69, 124, 97, 124, 49, 10] [90]] ⟨[], []⟩
          ⟨[⟨0, false, [], false⟩,
            ⟨1, false, [70, 73, 76, 69, 124, 97, 124, 49, 10, 90], false⟩], [0, 1]⟩ ∧
    [70, 73, 76, 69, 124, 97, 124, 49, 10] ++ [90]
      ≠ [70, 73, 76, 69, 124, 97, 124, 48, 49, 10] ++ [90] :=
  ⟨by decide, by decide⟩

/-- C3 (amended): for a file frame decoded from connection `i` whose
header is canonically encoded with a valid-UTF-8 filename
(`utf8Norm fn = fn`) — as `TCPClient._sender_loop` always produces,
interpolating a `str` filename — the relayed header and payload are
byte-identical to what `i` produced: every registered connection other
than `i` receives exactly `encodeFileFrame fn data` appended to its
stream, `i` itself receives nothing, and the registry is unchanged.  In
general the server relays `fileHeader`, re-encoding the replace-decoded
fields it parsed, rather than the bytes it received. -/
theorem c3_broadcast_delivery (w : World) (i : Nat) (fn data more : List Nat) (c : Conn)
    (hv : ValidNet c) (hp : pending c = encodeFileFrame fn data ++ more)
    (h124 : (124 : Nat) ∉ fn) (h10 : (10 : Nat) ∉ fn) (hnorm : utf8Norm fn = fn)
    (hcid : cidNodup w) (hreg : w.registry.Nodup)
    (hh : ∀ j ∈ w.registry, j ≠ i → targetFails w j = false) :
    ∃ c', sessionStep c = Step.ok (Event.file fn (data.length : Int) data) c' ∧
      handle_client_step i true c w
        = SessionOut.next (Event.file fn (data.length : Int) data)
            [Effect.save fn data,
             Effect.relay (fileHeader fn (data.length : Int)) data] c'
            (broadcast i (fileHeader fn (data.length : Int)) data w) ∧
      fileHeader fn (data.length : Int) ++ data = encodeFileFrame fn data ∧
      (∀ j ∈ w.registry, j ≠ i → ∀ cj, getConn w j = some cj →
        getConn (broadcast i (fileHeader fn (data.length : Int)) data w) j
          = some (appendRcvd (encodeFileFrame fn data) cj)) ∧
      getConn (broadcast i (fileHeader fn (data.length : Int)) data w) i = getConn w i ∧
      (broadcast i (fileHeader fn (data.length : Int)) data w).registry = w.registry := by
  obtain ⟨c', h1, h2, -⟩ := sessionStep_decode_file c hv fn data more hp h124 h10
  obtain ⟨hbreg, -, hbdel, hbself, -⟩ :=
    broadcast_healthy i (fileHeader fn (data.length : Int)) data w hcid hreg hh
  have henc : fileHeader fn (data.length : Int) ++ data = encodeFileFrame fn data :=
    (encode_eq_fileHeader fn data hnorm).symm
  refine ⟨c', h1, handle_client_step_file_ok i c w fn data _ c' h1, henc, ?_,
    hbself, hbreg⟩
  intro j hj hji cj hg
  rw [hbdel j hj hji, hg]
  simp only [Option.map_some']
  rw [henc]

theorem c3_broadcast_delivery_witness :
    ∃ c', sessionStep ⟨[], [encodeFileFrame [97] [90]]⟩
        = Step.ok (Event.file [97] (([90] : List Nat).length : Int) [90]) c' ∧
      handle_client_step 0 true ⟨[], [encodeFileFrame [97] [90]]⟩
          ⟨[⟨0, false, [], false⟩, ⟨1, false, [], false⟩], [0, 1]⟩
        = SessionOut.next (Event.file [97] (([90] : List Nat).length : Int) [90])
            [Effect.save [97] [90],
             Effect.relay (fileHeader [97] (([90] : List Nat).length : Int)) [90]] c'
            (broadcast 0 (fileHeader [97] (([90] : List Nat).length : Int)) [90]
              ⟨[⟨0, false, [], false⟩, ⟨1, false, [], false⟩], [0, 1]⟩) ∧
      fileHeader [97] (([90] : List Nat).length : Int) ++ [90]
        = encodeFileFrame [97] [90] ∧
      (∀ j ∈ (⟨[⟨0, false, [], false⟩, ⟨1, false, [], false⟩], [0, 1]⟩ : World).registry,
        j ≠ 0 → ∀ cj,
        getConn ⟨[⟨0, false, [], false⟩, ⟨1, false, [], false⟩], [0, 1]⟩ j = some cj →
        getConn (broadcast 0 (fileHeader [97] (([90] : List Nat).length : Int)) [90]
            ⟨[⟨0, false, [], false⟩, ⟨1, false, [], false⟩], [0, 1]⟩) j
          = some (appendRcvd (encodeFileFrame [97] [90]) cj)) ∧
      getConn (broadcast 0 (fileHeader [97] (([90] : List Nat).length : Int)) [90]
          ⟨[⟨0, false, [], false⟩, ⟨1, false, [], false⟩], [0, 1]⟩) 0
        = getConn ⟨[⟨0, false, [], false⟩, ⟨1, false, [], false⟩], [0, 1]⟩ 0 ∧
      (broadcast 0 (fileHeader [97] (([90] : List Nat).length : Int)) [90]
          ⟨[⟨0, false, [], false⟩, ⟨1, false, [], false⟩], [0, 1]⟩).registry
        = (⟨[⟨0, false, [], false⟩, ⟨1, false, [], false⟩], [0, 1]⟩ : World).registry :=
  c3_broadcast_delivery ⟨[⟨0, false, [], false⟩, ⟨1, false, [], false⟩], [0, 1]⟩ 0
    [97] [90] [] ⟨[], [encodeFileFrame [97] [90]]⟩
    (by decide) (by decide) (by decide) (by decide) (by decide) (by decide) (by decide)
    (by decide)

/-- C4: if during a broadcast the send to target `b` fails, afterwards
`b` is gone from the registry and its stream closed, every other target
still receives the frame, the originating session is unaffected (its
connection receives nothing, and a session step keeps returning `next`),
and a subsequent broadcast reaches every remaining connection. -/
theorem c4_send_failure (w : World) (s b : Nat) (h p h2 p2 : List Nat)
    (hcid : cidNodup w) (hreg : w.registry.Nodup)
    (hb : b ∈ w.registry) (hbs : b ≠ s) (hbf : targetFails w b = true)
    (hrest : ∀ j ∈ w.registry, j ≠ s → j ≠ b → targetFails w j = false) :
    b ∉ (broadcast s h p w).registry ∧
    (∀ cb, getConn w b = some cb →
      getConn (broadcast s h p w) b = some (closeConn cb) ∧
      (closeConn cb).closed = true) ∧
    (∀ j ∈ w.registry, j ≠ s → j ≠ b → ∀ cj, getConn w j = some cj →
      getConn (broadcast s h p w) j = some (appendRcvd (h ++ p) cj)) ∧
    getConn (broadcast s h p w) s = getConn w s ∧
    (∀ cA text cA', sessionStep cA = Step.ok (Event.msg text) cA' →
      handle_client_step s true cA w = SessionOut.next (Event.msg text)
        [Effect.relay (msgHeader text) []] cA' (broadcast s (msgHeader text) [] w)) ∧
    (∀ j ∈ w.registry, j ≠ b → j ∈ (broadcast s h p w).registry) ∧
    (∀ j ∈ (broadcast s h p w).registry, j ≠ s →
      ∀ cj, getConn (broadcast s h p w) j = some cj →
        getConn (broadcast s h2 p2 (broadcast s h p w)) j
          = some (appendRcvd (h2 ++ p2) cj)) := by
  obtain ⟨hnotb, hkeep, hsub, hnd, hcid', hgetb, hgetj, hgets, hhealthy⟩ :=
    broadcast_oneFail s b h p w hcid hreg hb hbs hbf hrest
  refine ⟨hnotb, ?_, ?_, hgets, ?_, hkeep, ?_⟩
  · intro cb hg
    rw [hgetb, hg]
    exact ⟨rfl, rfl⟩
  · intro j hj hjs hjb cj hg
    rw [hgetj j hj hjs hjb, hg]
    rfl
  · intro cA text cA' hstep
    exact handle_client_step_msg s true cA w text cA' hstep
  · intro j hj hjs cj hg
    obtain ⟨-, -, hdel2, -, -⟩ :=
      broadcast_healthy s h2 p2 (broadcast s h p w) hcid' hnd hhealthy
    rw [hdel2 j hj hjs, hg]
    rfl

theorem c4_send_failure_witness :
    1 ∉ (broadcast 0 [77] [] ⟨[⟨0, false, [], false⟩, ⟨1, true, [], false⟩,
        ⟨2, false, [], false⟩], [0, 1, 2]⟩).registry ∧
    (∀ cb, getConn ⟨[⟨0, false, [], false⟩, ⟨1, true, [], false⟩,
        ⟨2, false, [], false⟩], [0, 1, 2]⟩ 1 = some cb →
      getConn (broadcast 0 [77] [] ⟨[⟨0, false, [], false⟩, ⟨1, true, [], false⟩,
        ⟨2, false, [], false⟩], [0, 1, 2]⟩) 1 = some (closeConn cb) ∧
      (closeConn cb).closed = true) ∧
    (∀ j ∈ (⟨[⟨0, false, [], false⟩, ⟨1, true, [], false⟩,
        ⟨2, false, [], false⟩], [0, 1, 2]⟩ : World).registry, j ≠ 0 → j ≠ 1 →
      ∀ cj, getConn ⟨[⟨0, false, [], false⟩, ⟨1, true, [], false⟩,
        ⟨2, false, [], false⟩], [0, 1, 2]⟩ j = some cj →
      getConn (broadcast 0 [77] [] ⟨[⟨0, false, [], false⟩, ⟨1, true, [], false⟩,
        ⟨2, false, [], false⟩], [0, 1, 2]⟩) j = some (appendRcvd ([77] ++ []) cj)) ∧
    getConn (broadcast 0 [77] [] ⟨[⟨0, false, [], false⟩, ⟨1, true, [], false⟩,
        ⟨2, false, [], false⟩], [0, 1, 2]⟩) 0
      = getConn ⟨[⟨0, false, [], false⟩, ⟨1, true, [], false⟩,
        ⟨2, false, [], false⟩], [0, 1, 2]⟩ 0 ∧
    (∀ cA text cA', sessionStep cA = Step.ok (Event.msg text) cA' →
      handle_client_step 0 true cA ⟨[⟨0, false, [], false⟩, ⟨1, true, [], false⟩,
          ⟨2, false, [], false⟩], [0, 1, 2]⟩ = SessionOut.next (Event.msg text)
        [Effect.relay (msgHeader text) []] cA'
        (broadcast 0 (msgHeader text) [] ⟨[⟨0, false, [], false⟩, ⟨1, true, [], false⟩,
          ⟨2, false, [], false⟩], [0, 1, 2]⟩)) ∧
    (∀ j ∈ (⟨[⟨0, false, [], false⟩, ⟨1, true, [], false⟩,
        ⟨2, false, [], false⟩], [0, 1, 2]⟩ : World).registry, j ≠ 1 →
      j ∈ (broadcast 0 [77] [] ⟨[⟨0, false, [], false⟩, ⟨1, true, [], false⟩,
        ⟨2, false, [], false⟩], [0, 1, 2]⟩).registry) ∧
    (∀ j ∈ (broadcast 0 [77] [] ⟨[⟨0, false, [], false⟩, ⟨1, true, [], false⟩,
        ⟨2, false, [], false⟩], [0, 1, 2]⟩).registry, j ≠ 0 →
      ∀ cj, getConn (broadcast 0 [77] [] ⟨[⟨0, false, [], false⟩, ⟨1, true, [], false⟩,
        ⟨2, false, [], false⟩], [0, 1, 2]⟩) j = some cj →
        getConn (broadcast 0 [70] [9] (broadcast 0 [77] []
            ⟨[⟨0, false, [], false⟩, ⟨1, true, [], false⟩,
              ⟨2, false, [], false⟩], [0, 1, 2]⟩)) j
          = some (appendRcvd ([70] ++ [9]) cj)) :=
  c4_send_failure ⟨[⟨0, false, [], false⟩, ⟨1, true, [], false⟩,
      ⟨2, false, [], false⟩], [0, 1, 2]⟩ 0 1 [77] [] [70] [9]
    (by decide) (by decide) (by decide) (by decide) (by decide) (by decide)

/-- C6: a received header line with an unknown tag, or one starting with
`FILE|` that does not split on `|` into exactly 3 fields, produces a
logged warning event and no frame; the session stays active with exactly
the header line consumed, and a well-formed frame following it decodes
correctly — frame boundaries do not desynchronize. -/
theorem c6_malformed_header (c : Conn) (hv : ValidNet c) (hb rest : List Nat)
    (hp : pending c = hb ++ 10 :: rest) (h10 : (10 : Nat) ∉ hb)
    (hcase : (hb.take 4 ≠ msgTag ∧ hb.take 5 ≠ fileTag) ∨
      (hb.take 5 = fileTag ∧ (pySplit 124 hb).length ≠ 3)) :
    ∃ ev c₁, sessionStep c = Step.ok ev c₁ ∧
      (ev = Event.unknown hb ∨ ev = Event.badHeader hb) ∧
      pending c₁ = rest ∧ ValidNet c₁ ∧
      (∀ fn data rest2, rest = encodeFileFrame fn data ++ rest2 →
        (124 : Nat) ∉ fn → (10 : Nat) ∉ fn →
        ∃ c₂, sessionStep c₁ = Step.ok (Event.file fn (data.length : Int) data) c₂ ∧
          pending c₂ = rest2) := by
  rcases hcase with ⟨hm, hf⟩ | ⟨hf, hcnt⟩
  · obtain ⟨c₁, e, eb, ec⟩ := sessionStep_unknown c hv hb rest hp h10 hm hf
    refine ⟨Event.unknown hb, c₁, e, Or.inl rfl, eb, ec, ?_⟩
    intro fn data rest2 hr h124' h10'
    obtain ⟨c₂, e2, eb2, -⟩ :=
      sessionStep_decode_file c₁ ec fn data rest2 (by rw [eb, hr]) h124' h10'
    exact ⟨c₂, e2, eb2⟩
  · obtain ⟨c₁, e, eb, ec⟩ := sessionStep_badHeader c hv hb rest hp h10 hf hcnt
    refine ⟨Event.badHeader hb, c₁, e, Or.inr rfl, eb, ec, ?_⟩
    intro fn data rest2 hr h124' h10'
    obtain ⟨c₂, e2, eb2, -⟩ :=
      sessionStep_decode_file c₁ ec fn data rest2 (by rw [eb, hr]) h124' h10'
    exact ⟨c₂, e2, eb2⟩

theorem c6_malformed_header_witness :
    ∃ ev c₁, sessionStep ⟨[], [[88] ++ 10 :: encodeFileFrame [97] [7]]⟩
        = Step.ok ev c₁ ∧
      (ev = Event.unknown [88] ∨ ev = Event.badHeader [88]) ∧
      pending c₁ = encodeFileFrame [97] [7] ∧ ValidNet c₁ ∧
      (∀ fn data rest2, encodeFileFrame [97] [7] = encodeFileFrame fn data ++ rest2 →
        (124 : Nat) ∉ fn → (10 : Nat) ∉ fn →
        ∃ c₂, sessionStep c₁ = Step.ok (Event.file fn (data.length : Int) data) c₂ ∧
          pending c₂ = rest2) :=
  c6_malformed_header ⟨[], [[88] ++ 10 :: encodeFileFrame [97] [7]]⟩ (by decide)
    [88] (encodeFileFrame [97] [7]) (by decide) (by decide) (by decide)

/-- C7: `read_line`/`read_exact` fail (raise `ConnectionError`) exactly
when the transport is exhausted — returns zero bytes — before a complete
delimited line, respectively the requested byte count, is available;
such a failure makes the session step report `closed`, upon which
`handle_client`'s `finally` removes the connection from the registry and
closes it.  (The model is a total function: the failure never escapes
past the per-connection handler.) -/
theorem c7_connection_closed (c : Conn) (hv : ValidNet c) (n : Int) (i : Nat) (d : Bool)
    (w : World) (hreg : w.registry.Nodup) :
    (recv_line c = none ↔ (10 : Nat) ∉ pending c) ∧
    (recv_exact n c = none ↔ ((pending c).length : Int) < n) ∧
    (recv_line c = none → sessionStep c = Step.closed) ∧
    (sessionStep c = Step.closed →
      handle_client_step i d c w = SessionOut.terminated (remove_client i w)) ∧
    i ∉ (remove_client i w).registry ∧
    (∀ cj, getConn w i = some cj → getConn (remove_client i w) i = some (closeConn cj) ∧
      (closeConn cj).closed = true) := by
  refine ⟨(recv_line_spec c hv).1, recv_exact_none_iff n c hv, ?_,
    handle_client_step_closed i d c w, remove_client_not_mem i w hreg,
    fun cj hg => ⟨remove_client_closes i w cj hg, rfl⟩⟩
  intro hnone
  simp [sessionStep, hnone]

theorem c7_connection_closed_witness :
    (recv_line ⟨[], []⟩ = none ↔ (10 : Nat) ∉ pending ⟨[], []⟩) ∧
    (recv_exact 3 ⟨[], []⟩ = none ↔ ((pending (⟨[], []⟩ : Conn)).length : Int) < 3) ∧
    (recv_line ⟨[], []⟩ = none → sessionStep ⟨[], []⟩ = Step.closed) ∧
    (sessionStep ⟨[], []⟩ = Step.closed →
      handle_client_step 5 true ⟨[], []⟩ ⟨[⟨5, false, [], false⟩], [5]⟩
        = SessionOut.terminated (remove_client 5 ⟨[⟨5, false, [], false⟩], [5]⟩)) ∧
    5 ∉ (remove_client 5 ⟨[⟨5, false, [], false⟩], [5]⟩).registry ∧
    (∀ cj, getConn ⟨[⟨5, false, [], false⟩], [5]⟩ 5 = some cj →
      getConn (remove_client 5 ⟨[⟨5, false, [], false⟩], [5]⟩) 5 = some (closeConn cj) ∧
      (closeConn cj).closed = true) :=
  c7_connection_closed ⟨[], []⟩ (by decide) 3 5 true
    ⟨[⟨5, false, [], false⟩], [5]⟩ (by decide)

/-- C8: `read_exact(0)` returns the empty byte string and leaves the
reader state — accumulator and transport — untouched, for every state;
consequently `FILE|<name>|0` decodes as a valid zero-payload file frame
that is saved and relayed, whereas a `FILE|<name>` header with no size
field at all splits into 2 fields and is a parse error. -/
theorem c8_zero_length (c c₂ c₃ : Conn) (fn rest rest3 : List Nat)
    (hv₂ : ValidNet c₂) (hv₃ : ValidNet c₃)
    (hfn124 : (124 : Nat) ∉ fn) (hfn10 : (10 : Nat) ∉ fn)
    (hp₂ : pending c₂ = encodeFileFrame fn [] ++ rest)
    (hp₃ : pending c₃ = (fileTag ++ fn) ++ 10 :: rest3) :
    recv_exact 0 c = some ([], c) ∧
    (∃ c', sessionStep c₂ = Step.ok (Event.file fn 0 []) c' ∧ pending c' = rest ∧
      ∀ i w, handle_client_step i true c₂ w
        = SessionOut.next (Event.file fn 0 [])
            [Effect.save fn [], Effect.relay (fileHeader fn 0) []] c'
            (broadcast i (fileHeader fn 0) [] w)) ∧
    (∃ c', sessionStep c₃ = Step.ok (Event.badHeader (fileTag ++ fn)) c' ∧
      pending c' = rest3) := by
  refine ⟨recv_exact_zero c, ?_, ?_⟩
  · obtain ⟨c', h1, h2, -⟩ := sessionStep_decode_file c₂ hv₂ fn [] rest hp₂ hfn124 hfn10
    have hz : ((([] : List Nat).length : Nat) : Int) = 0 := rfl
    rw [hz] at h1
    exact ⟨c', h1, h2, fun i w => handle_client_step_file_ok i c₂ w fn [] 0 c' h1⟩
  · have h10' : (10 : Nat) ∉ fileTag ++ fn := by
      intro hm
      rcases List.mem_append.mp hm with hm | hm
      · simp [fileTag] at hm
      · exact hfn10 hm
    have hcnt : (pySplit 124 (fileTag ++ fn)).length ≠ 3 := by
      have h1 : fileTag ++ fn = [70, 73, 76, 69] ++ 124 :: fn := by simp [fileTag]
      rw [h1, pySplit_sep_append 124 _ _ (by decide), pySplit_no_sep 124 _ hfn124]
      simp
    obtain ⟨c', e, eb, -⟩ := sessionStep_badHeader c₃ hv₃ (fileTag ++ fn) rest3 hp₃
      h10' (fileTag_take5 fn) hcnt
    exact ⟨c', e, eb⟩

theorem c8_zero_length_witness :
    recv_exact 0 ⟨[65], [[7]]⟩ = some ([], ⟨[65], [[7]]⟩) ∧
    (∃ c', sessionStep ⟨[], [encodeFileFrame [97] []]⟩
        = Step.ok (Event.file [97] 0 []) c' ∧ pending c' = [] ∧
      ∀ i w, handle_client_step i true ⟨[], [encodeFileFrame [97] []]⟩ w
        = SessionOut.next (Event.file [97] 0 [])
            [Effect.save [97] [], Effect.relay (fileHeader [97] 0) []] c'
            (broadcast i (fileHeader [97] 0) [] w)) ∧
    (∃ c', sessionStep ⟨[], [[70, 73, 76, 69, 124, 97, 10, 66]]⟩
        = Step.ok (Event.badHeader (fileTag ++ [97])) c' ∧ pending c' = [66]) :=
  c8_zero_length ⟨[65], [[7]]⟩ ⟨[], [encodeFileFrame [97] []]⟩
    ⟨[], [[70, 73, 76, 69, 124, 97, 10, 66]]⟩ [97] [] [66]
    (by decide) (by decide) (by decide) (by decide) (by decide) (by decide)

/-- C9: a connection handle appears at most once in the registry —
registration of a fresh handle, removal, and broadcast-triggered pruning
all preserve distinctness; `remove_client` is idempotent, removing an
absent handle leaves the registry unchanged while still closing the
handle, and closing is itself idempotent (an already-closed stream stays
closed and no error propagates — the model's `close` is total). -/
theorem c9_registry_invariants (w : World) (cl : Client) (i s : Nat) (h p : List Nat)
    (hcid : cidNodup w) (hreg : w.registry.Nodup) (hfresh : cl.cid ∉ w.registry) :
    (register cl w).registry.Nodup ∧
    (remove_client i w).registry.Nodup ∧
    (broadcast s h p w).registry.Nodup ∧
    remove_client i (remove_client i w) = remove_client i w ∧
    (i ∉ w.registry → (remove_client i w).registry = w.registry) ∧
    (∀ cj, getConn w i = some cj →
      getConn (remove_client i w) i = some (closeConn cj)) ∧
    closeConn (closeConn cl) = closeConn cl :=
  ⟨register_nodup cl w hreg hfresh, remove_client_nodup i w hreg,
    broadcast_registry_nodup s h p w hcid hreg, remove_client_idem i w hreg,
    remove_client_absent i w, remove_client_closes i w, closeConn_idem cl⟩

theorem c9_registry_invariants_witness :
    (register ⟨9, false, [], false⟩
      ⟨[⟨0, false, [], false⟩, ⟨1, false, [], false⟩], [0, 1]⟩).registry.Nodup ∧
    (remove_client 1 ⟨[⟨0, false, [], false⟩, ⟨1, false, [], false⟩],
      [0, 1]⟩).registry.Nodup ∧
    (broadcast 0 [77] [] ⟨[⟨0, false, [], false⟩, ⟨1, false, [], false⟩],
      [0, 1]⟩).registry.Nodup ∧
    remove_client 1 (remove_client 1
        ⟨[⟨0, false, [], false⟩, ⟨1, false, [], false⟩], [0, 1]⟩)
      = remove_client 1 ⟨[⟨0, false, [], false⟩, ⟨1, false, [], false⟩], [0, 1]⟩ ∧
    (1 ∉ (⟨[⟨0, false, [], false⟩, ⟨1, false, [], false⟩], [0, 1]⟩ : World).registry →
      (remove_client 1 ⟨[⟨0, false, [], false⟩, ⟨1, false, [], false⟩],
        [0, 1]⟩).registry
      = (⟨[⟨0, false, [], false⟩, ⟨1, false, [], false⟩], [0, 1]⟩ : World).registry) ∧
    (∀ cj, getConn ⟨[⟨0, false, [], false⟩, ⟨1, false, [], false⟩], [0, 1]⟩ 1
        = some cj →
      getConn (remove_client 1 ⟨[⟨0, false, [], false⟩, ⟨1, false, [], false⟩],
        [0, 1]⟩) 1 = some (closeConn cj)) ∧
    closeConn (closeConn ⟨9, false, [], false⟩) = closeConn ⟨9, false, [], false⟩ :=
  c9_registry_invariants ⟨[⟨0, false, [], false⟩, ⟨1, false, [], false⟩], [0, 1]⟩
    ⟨9, false, [], false⟩ 1 0 [77] [] (by decide) (by decide) (by decide)

/-- C10: for a decoded FileTransfer frame the payload is fully received
(`length = size` for the non-negative sizes every decoded header that
reaches the disk write carries) and the save effect precedes the relay
effect, which relays exactly the saved bytes; if the disk open/write
raises, the step terminates with `remove_client` applied and no
broadcast — no other connection's received bytes change, and the sender
is gone from the registry with its stream closed. -/
theorem c10_save_then_relay (c c' : Conn) (hv : ValidNet c) (fn data : List Nat)
    (sz : Int) (i : Nat) (w : World) (hreg : w.registry.Nodup)
    (hstep : sessionStep c = Step.ok (Event.file fn sz data) c') :
    (0 ≤ sz → data.length = sz.toNat) ∧
    handle_client_step i true c w = SessionOut.next (Event.file fn sz data)
      [Effect.save fn data, Effect.relay (fileHeader fn sz) data] c'
      (broadcast i (fileHeader fn sz) data w) ∧
    handle_client_step i false c w = SessionOut.terminated (remove_client i w) ∧
    i ∉ (remove_client i w).registry ∧
    (∀ j cj, getConn w j = some cj → ∃ cj', getConn (remove_client i w) j = some cj' ∧
      cj'.rcvd = cj.rcvd) ∧
    (∀ cj, getConn w i = some cj →
      getConn (remove_client i w) i = some (closeConn cj)) := by
  refine ⟨fun hsz => sessionStep_file_length c hv fn sz data c' hstep hsz,
    handle_client_step_file_ok i c w fn data sz c' hstep,
    handle_client_step_file_diskfail i c w fn data sz c' hstep,
    remove_client_not_mem i w hreg, ?_, remove_client_closes i w⟩
  intro j cj hg
  obtain ⟨cj', h1, h2, -⟩ := remove_client_rcvd i j w cj hg
  exact ⟨cj', h1, h2⟩

theorem c10_save_then_relay_witness :
    ((0 : Int) ≤ 1 → ([90] : List Nat).length = (1 : Int).toNat) ∧
    handle_client_step 0 true ⟨[], [encodeFileFrame [97] [90]]⟩
        ⟨[⟨0, false, [], false⟩, ⟨1, false, [], false⟩], [0, 1]⟩
      = SessionOut.next (Event.file [97] 1 [90])
        [Effect.save [97] [90], Effect.relay (fileHeader [97] 1) [90]] ⟨[], []⟩
        (broadcast 0 (fileHeader [97] 1) [90]
          ⟨[⟨0, false, [], false⟩, ⟨1, false, [], false⟩], [0, 1]⟩) ∧
    handle_client_step 0 false ⟨[], [encodeFileFrame [97] [90]]⟩
        ⟨[⟨0, false, [], false⟩, ⟨1, false, [], false⟩], [0, 1]⟩
      = SessionOut.terminated (remove_client 0
          ⟨[⟨0, false, [], false⟩, ⟨1, false, [], false⟩], [0, 1]⟩) ∧
    0 ∉ (remove_client 0
        ⟨[⟨0, false, [], false⟩, ⟨1, false, [], false⟩], [0, 1]⟩).registry ∧
    (∀ j cj, getConn ⟨[⟨0, false, [], false⟩, ⟨1, false, [], false⟩], [0, 1]⟩ j
        = some cj →
      ∃ cj', getConn (remove_client 0
          ⟨[⟨0, false, [], false⟩, ⟨1, false, [], false⟩], [0, 1]⟩) j = some cj' ∧
        cj'.rcvd = cj.rcvd) ∧
    (∀ cj, getConn ⟨[⟨0, false, [], false⟩, ⟨1, false, [], false⟩], [0, 1]⟩ 0
        = some cj →
      getConn (remove_client 0
          ⟨[⟨0, false, [], false⟩, ⟨1, false, [], false⟩], [0, 1]⟩) 0
        = some (closeConn cj)) :=
  c10_save_then_relay ⟨[], [encodeFileFrame [97] [90]]⟩ ⟨[], []⟩ (by decide)
    [97] [90] 1 0 ⟨[⟨0, false, [], false⟩, ⟨1, false, [], false⟩], [0, 1]⟩
    (by decide) (by decide)

